import Mathlib

/-!
# Formal model of the `neuron` visual-pathway pipeline

A shallow embedding, in Lean 4, of the feed-forward visual pipeline of the
repository (ganglion edge layer, V1 orientation layer, V2 corner/contour
layer, V4 shape layer, and the `VisualPathway` orchestrator), together with
theorems settling the specification claims about it.

Modelling conventions:
* `f32` values are modelled as exact rationals (`ℚ`); the pipeline only ever
  adds, multiplies, divides, clamps and compares, so every step is rational,
  EXCEPT the Gaussian `exp` and the trigonometric `cos`/`sin` used by the V1
  layer and by the cone spectral-sensitivity curve.  Those two transcendental
  functions are passed in as explicit parameters (`E` for `exp`, `T` mapping
  an orientation in degrees to its `(cos, sin)` pair), and the theorems
  quantify over them or instantiate them only at arguments such as `0`, where
  the true `f32` value is exact (`exp 0 = 1`, `cos 0 = 1`, `sin 0 = 0`).
* `sqrt (dx² + dy²) ≤ r` comparisons of the source are embedded as the
  equivalent `dx² + dy² ≤ r²` (both sides nonnegative, squaring is monotone).
* dense 2-D buffers (`Vec<Vec<_>>` used as fixed-size matrices) are embedded
  as total functions `ℕ → ℕ → α` together with the explicit width/height that
  the source structures carry; all source reads/writes are in bounds at the
  call sites modelled here.
* `usize` subtraction, which panics on underflow in the source build, is
  embedded with an explicit underflow check returning `Option` (`none` =
  panic).
-/

namespace NNN

/-- `f32::clamp(v, lo, hi)` -/
def qclamp (v lo hi : ℚ) : ℚ := min (max v lo) hi

/-- the inclusive integer range `a..=b` as a list, in increasing order -/
def intRange (a b : ℤ) : List ℤ := (List.range (b - a + 1).toNat).map (fun i => a + i)

/-- Rust `(a..b).step_by(s)` for naturals: the members `n` of `[a, b)` with
`n ≡ a (mod s)`, in increasing order (for `s > 0`, as at every call site). -/
def rangeStep (a b s : ℕ) : List ℕ :=
  (List.range b).filter (fun n => a ≤ n ∧ (n - a) % s = 0)

/-- a dense matrix, indexed `g x y` (column `x`, row `y`) -/
abbrev Grid (α : Type) : Type := ℕ → ℕ → α

/-- the square of signed offsets `(dx, dy)` for `dy` (outer loop) and `dx`
(inner loop) each ranging over `-r..=r`, in source iteration order -/
def squareOffsets (r : ℤ) : List (ℤ × ℤ) :=
  (intRange (-r) r).flatMap (fun dy => (intRange (-r) r).map (fun dx => (dx, dy)))

/-- add a signed offset to an unsigned position, returning the target pixel
when it lies inside the `w × h` grid (the source skips it otherwise) -/
def offsetPos (x y w h : ℕ) (d : ℤ × ℤ) : Option (ℕ × ℕ) :=
  let px : ℤ := (x : ℤ) + d.1
  let py : ℤ := (y : ℤ) + d.2
  if 0 ≤ px ∧ 0 ≤ py ∧ px < (w : ℤ) ∧ py < (h : ℤ) then some (px.toNat, py.toNat) else none

/-! ## Ganglion layer (`src/ganglion.rs`) -/

inductive GanglionType
  | onCenter
  | offCenter
deriving DecidableEq, Repr

structure GanglionCell where
  cellType : GanglionType
  x : ℕ
  y : ℕ
  centerRadius : ℚ
  surroundRadius : ℚ
deriving DecidableEq, Repr

structure CSSums where
  centerSum : ℚ
  centerCount : ℕ
  surroundSum : ℚ
  surroundCount : ℕ

/-- the center/surround sampling loop of `GanglionCell::compute_response`:
sample every offset within the square of half-width `surround_radius as i32`,
skip out-of-bounds pixels, and bucket by Euclidean distance (compared on
squares) into center / surround sums and counts -/
def GanglionCell.sample (c : GanglionCell) (img : Grid ℚ) (w h : ℕ) : CSSums :=
  (squareOffsets ⌊c.surroundRadius⌋).foldl
    (fun acc d =>
      match offsetPos c.x c.y w h d with
      | none => acc
      | some p =>
        let d2 : ℚ := ((d.1 * d.1 + d.2 * d.2 : ℤ) : ℚ)
        let intensity := img p.1 p.2
        if d2 ≤ c.centerRadius ^ 2 then
          { acc with centerSum := acc.centerSum + intensity,
                     centerCount := acc.centerCount + 1 }
        else if d2 ≤ c.surroundRadius ^ 2 then
          { acc with surroundSum := acc.surroundSum + intensity,
                     surroundCount := acc.surroundCount + 1 }
        else acc)
    ⟨0, 0, 0, 0⟩

def GanglionCell.centerActivation (c : GanglionCell) (img : Grid ℚ) (w h : ℕ) : ℚ :=
  let s := c.sample img w h
  if 0 < s.centerCount then s.centerSum / (s.centerCount : ℚ) else 0

def GanglionCell.surroundActivation (c : GanglionCell) (img : Grid ℚ) (w h : ℕ) : ℚ :=
  let s := c.sample img w h
  if 0 < s.surroundCount then s.surroundSum / (s.surroundCount : ℚ) else 0

/-- `GanglionCell::response_strength`: the signed center-surround difference -/
def GanglionCell.responseStrength (c : GanglionCell) (img : Grid ℚ) (w h : ℕ) : ℚ :=
  match c.cellType with
  | .onCenter => c.centerActivation img w h - c.surroundActivation img w h
  | .offCenter => c.surroundActivation img w h - c.centerActivation img w h

/-- `output_rate = (response * 100.0).max(0.0)` -/
def GanglionCell.outputRate (c : GanglionCell) (img : Grid ℚ) (w h : ℕ) : ℚ :=
  max (c.responseStrength img w h * 100) 0

/-- `GanglionLayer::new`: ON and OFF cells at every grid point of the
`spacing`-spaced lattice over `[0,w) × [0,h)` -/
def ganglionNew (w h spacing : ℕ) (cr sr : ℚ) : List GanglionCell :=
  (rangeStep 0 h spacing).flatMap (fun y =>
    (rangeStep 0 w spacing).flatMap (fun x =>
      [⟨.onCenter, x, y, cr, sr⟩, ⟨.offCenter, x, y, cr, sr⟩]))

/-- one `+=` step of `GanglionLayer::create_edge_map` -/
def edgeAccum (w h : ℕ) (img : Grid ℚ) (m : Grid ℚ) (c : GanglionCell) : Grid ℚ :=
  if c.x < w ∧ c.y < h then
    fun a b => if a = c.x ∧ b = c.y then m a b + |c.responseStrength img w h| else m a b
  else m

/-- `GanglionLayer::create_edge_map`: a zeroed `w × h` buffer into which every
in-bounds cell accumulates (`+=`) the absolute value of its
`response_strength` at its own pixel -/
def createEdgeMap (cells : List GanglionCell) (w h : ℕ) (img : Grid ℚ) : Grid ℚ :=
  cells.foldl (edgeAccum w h img) (fun _ _ => 0)

/-! ## Claim C3 -/

/-- the literal reading of claim C3: the edge map holds, at each detector's
pixel, the absolute value of THAT detector's firing rate (`max 0 (diff*100)`),
and `0` away from the detector grid -/
def claimC3 (cells : List GanglionCell) (w h : ℕ) (img : Grid ℚ) : Prop :=
  (∀ c ∈ cells, createEdgeMap cells w h img c.x c.y = |c.outputRate img w h|) ∧
  (∀ x y, x < w → y < h → (∀ c ∈ cells, ¬(c.x = x ∧ c.y = y)) →
    createEdgeMap cells w h img x y = 0)

lemma foldl_edgeAccum_value (w h : ℕ) (img : Grid ℚ) (x y : ℕ) :
    ∀ (cells : List GanglionCell) (m : Grid ℚ),
      (cells.foldl (edgeAccum w h img) m) x y
        = m x y +
          ((cells.filter (fun c => decide (c.x = x ∧ c.y = y ∧ c.x < w ∧ c.y < h))).map
            (fun c => |c.responseStrength img w h|)).sum := by
  intro cells
  induction cells with
  | nil => intro m; simp
  | cons c cs ih =>
    intro m
    rw [List.foldl_cons, ih]
    by_cases hc : c.x = x ∧ c.y = y ∧ c.x < w ∧ c.y < h
    · obtain ⟨h1, h2, h3, h4⟩ := hc
      rw [List.filter_cons_of_pos
        (by simp only [decide_eq_true_eq]; exact ⟨h1, h2, h3, h4⟩)]
      have hstep : edgeAccum w h img m c x y = m x y + |c.responseStrength img w h| := by
        subst h1; subst h2
        simp [edgeAccum, h3, h4]
      rw [hstep]
      simp [add_assoc]
    · rw [List.filter_cons_of_neg (by simpa using hc)]
      have hstep : edgeAccum w h img m c x y = m x y := by
        unfold edgeAccum
        by_cases hb : c.x < w ∧ c.y < h
        · rw [if_pos hb]
          have : ¬(x = c.x ∧ y = c.y) := by
            intro ⟨e1, e2⟩
            exact hc ⟨e1.symm, e2.symm, hb.1, hb.2⟩
          exact if_neg this
        · exact congrFun (congrFun (if_neg hb) x) y
      rw [hstep]

/-- `l.flatMap (fun a => if a = t then u else [])` collapses, for a
duplicate-free `l`, to `u` or `[]` according to membership of `t` -/
lemma flatMap_ite_eq {α β : Type} [DecidableEq α] (t : α) (u : List β) :
    ∀ (l : List α), l.Nodup →
      (l.flatMap fun a => if a = t then u else []) = if t ∈ l then u else [] := by
  intro l
  induction l with
  | nil => simp
  | cons a l ih =>
    intro hnd
    obtain ⟨ha, hl⟩ := List.nodup_cons.mp hnd
    rw [List.flatMap_cons, ih hl]
    by_cases hat : a = t
    · subst hat
      simp [ha]
    · rw [if_neg hat, List.nil_append]
      by_cases htl : t ∈ l
      · rw [if_pos htl, if_pos (List.mem_cons_of_mem a htl)]
      · rw [if_neg htl, if_neg (by
          intro hm
          rcases List.mem_cons.mp hm with he | hm2
          · exact hat he.symm
          · exact htl hm2)]

lemma flatMap_ite_const {α β : Type} (l : List α) (C : Prop) [Decidable C]
    (f : α → List β) :
    (l.flatMap fun a => if C then f a else []) = if C then l.flatMap f else [] := by
  by_cases hC : C
  · simp [hC]
  · simp [hC]

lemma rangeStep_nodup (a b s : ℕ) : (rangeStep a b s).Nodup :=
  (List.nodup_range b).filter _

lemma mem_rangeStep {a b s n : ℕ} :
    n ∈ rangeStep a b s ↔ n < b ∧ a ≤ n ∧ (n - a) % s = 0 := by
  unfold rangeStep
  simp [List.mem_filter, List.mem_range, and_assoc]

lemma ganglionNew_filter (w h s : ℕ) (cr sr : ℚ) (x y : ℕ)
    (hx : x < w) (hy : y < h) :
    (ganglionNew w h s cr sr).filter
        (fun c => decide (c.x = x ∧ c.y = y ∧ c.x < w ∧ c.y < h))
      = if y ∈ rangeStep 0 h s ∧ x ∈ rangeStep 0 w s then
          [⟨.onCenter, x, y, cr, sr⟩, ⟨.offCenter, x, y, cr, sr⟩]
        else [] := by
  unfold ganglionNew
  rw [List.filter_flatMap]
  have hpair : ∀ x' y' : ℕ,
      ([(⟨.onCenter, x', y', cr, sr⟩ : GanglionCell), ⟨.offCenter, x', y', cr, sr⟩].filter
        (fun c => decide (c.x = x ∧ c.y = y ∧ c.x < w ∧ c.y < h)))
      = if x' = x ∧ y' = y then
          [⟨.onCenter, x, y, cr, sr⟩, ⟨.offCenter, x, y, cr, sr⟩] else [] := by
    intro x' y'
    by_cases hxy : x' = x ∧ y' = y
    · obtain ⟨e1, e2⟩ := hxy
      subst e1; subst e2
      rw [if_pos ⟨rfl, rfl⟩]
      simp [List.filter, hx, hy]
    · rw [if_neg hxy]
      have hno : ¬(x' = x ∧ y' = y ∧ x' < w ∧ y' < h) := fun ⟨a, b, _⟩ => hxy ⟨a, b⟩
      simp [List.filter, hno]
  have hbody : (fun y' => ((rangeStep 0 w s).flatMap (fun x' =>
          [(⟨.onCenter, x', y', cr, sr⟩ : GanglionCell), ⟨.offCenter, x', y', cr, sr⟩])).filter
          (fun c => decide (c.x = x ∧ c.y = y ∧ c.x < w ∧ c.y < h)))
      = (fun y' => if y' = y then
          ((rangeStep 0 w s).flatMap (fun x' =>
            if x' = x then
              [(⟨.onCenter, x, y, cr, sr⟩ : GanglionCell), ⟨.offCenter, x, y, cr, sr⟩]
            else []))
          else []) := by
    funext y'
    rw [List.filter_flatMap]
    have : (fun x' => ([(⟨.onCenter, x', y', cr, sr⟩ : GanglionCell),
            ⟨.offCenter, x', y', cr, sr⟩].filter
            (fun c => decide (c.x = x ∧ c.y = y ∧ c.x < w ∧ c.y < h))))
        = (fun x' => if y' = y then
            (if x' = x then
              [(⟨.onCenter, x, y, cr, sr⟩ : GanglionCell), ⟨.offCenter, x, y, cr, sr⟩]
             else [])
            else []) := by
      funext x'
      rw [hpair x' y']
      by_cases h1 : y' = y
      · by_cases h2 : x' = x
        · simp [h1, h2]
        · simp [h1, h2]
      · simp [h1, and_comm]
    rw [this, flatMap_ite_const]
  rw [hbody,
    flatMap_ite_eq y _ (rangeStep 0 h s) (rangeStep_nodup 0 h s),
    flatMap_ite_eq x _ (rangeStep 0 w s) (rangeStep_nodup 0 w s)]
  by_cases h1 : y ∈ rangeStep 0 h s
  · by_cases h2 : x ∈ rangeStep 0 w s
    · simp [h1, h2]
    · simp [h1, h2]
  · simp [h1]

/-- C3, amended: at each lattice position the edge map holds TWICE the
absolute raw center-surround difference (`|response_strength|` summed over
the co-located ON and OFF cells), not the rectified `×100` firing rate;
off-lattice positions hold `0`. -/
theorem c3_amended (w h s : ℕ) (cr sr : ℚ) (img : Grid ℚ) (x y : ℕ)
    (hx : x < w) (hy : y < h) :
    createEdgeMap (ganglionNew w h s cr sr) w h img x y =
      if x % s = 0 ∧ y % s = 0 then
        2 * |GanglionCell.responseStrength ⟨.onCenter, x, y, cr, sr⟩ img w h|
      else 0 := by
  unfold createEdgeMap
  rw [foldl_edgeAccum_value, ganglionNew_filter w h s cr sr x y hx hy]
  have hmy : (y ∈ rangeStep 0 h s) ↔ y % s = 0 := by
    rw [mem_rangeStep]
    simp [hy]
  have hmx : (x ∈ rangeStep 0 w s) ↔ x % s = 0 := by
    rw [mem_rangeStep]
    simp [hx]
  have habs : |GanglionCell.responseStrength ⟨.offCenter, x, y, cr, sr⟩ img w h|
      = |GanglionCell.responseStrength ⟨.onCenter, x, y, cr, sr⟩ img w h| := by
    unfold GanglionCell.responseStrength
    exact abs_sub_comm _ _
  by_cases h1 : y % s = 0
  · by_cases h2 : x % s = 0
    · rw [if_pos ⟨hmy.mpr h1, hmx.mpr h2⟩, if_pos ⟨h2, h1⟩]
      simp [habs]
      ring
    · rw [if_neg (fun hc => h2 (hmx.mp hc.2)), if_neg (fun hc => h2 hc.1)]
      simp
  · rw [if_neg (fun hc => h1 (hmy.mp hc.1)), if_neg (fun hc => h1 hc.2)]
    simp

theorem c3_amended_witness :
    createEdgeMap (ganglionNew 1 1 4 (3/2) 4) 1 1 (fun _ _ => 1) 0 0 =
      2 * |GanglionCell.responseStrength ⟨.onCenter, 0, 0, 3/2, 4⟩ (fun _ _ => 1) 1 1| := by
  have h := c3_amended 1 1 4 (3/2) 4 (fun _ _ => 1) 0 0 (by decide) (by decide)
  simpa using h

/-- C3, as stated, is false: on the all-ones 1×1 image the single lattice
position holds `2` (the summed `|response_strength|` of the ON and OFF
cells), while the ON cell's firing rate is `100`. -/
theorem c3_counterexample :
    ¬ claimC3 (ganglionNew 1 1 4 (3/2) 4) 1 1 (fun _ _ => 1) := by
  intro hcl
  have hm := hcl.1 ⟨GanglionType.onCenter, 0, 0, 3/2, 4⟩ (by with_unfolding_all decide)
  revert hm
  with_unfolding_all decide

/-! ## V1 cortex (`src/v1_cortex.rs`)

The `exp` of the Gabor weight and the `cos`/`sin` of the preferred
orientation are `f32` transcendentals; they enter as parameters
`E : ℚ → ℚ` and `T : ℚ → ℚ × ℚ` (degrees ↦ `(cos θ, sin θ)`). -/

inductive V1NeuronType
  | simple
  | complex
deriving DecidableEq, Repr

structure V1Neuron where
  neuronType : V1NeuronType
  x : ℕ
  y : ℕ
  orientation : ℚ
  rfSize : ℕ
deriving DecidableEq, Repr

/-- the receptive-field sampling loop of `V1Neuron::compute_response`: fold
over the `(2rf+1)²` offsets in source order, skipping out-of-bounds pixels
and offsets outside the Euclidean radius (compared on squares); every
surviving offset increments the sample count, and contributes
`edge × weight` with `weight = E (-perp²/2)` when
`perp < 2 ∧ projected < rf` (STRICT, as in the source), else `0` -/
def v1SampleSums (E : ℚ → ℚ) (T : ℚ → ℚ × ℚ) (em : Grid ℚ) (w h : ℕ)
    (n : V1Neuron) : ℚ × ℕ :=
  let cs := T n.orientation
  (squareOffsets (n.rfSize : ℤ)).foldl
    (fun (a : ℚ × ℕ) d =>
      match offsetPos n.x n.y w h d with
      | none => a
      | some p =>
        if ((n.rfSize : ℚ)) ^ 2 < ((d.1 * d.1 + d.2 * d.2 : ℤ) : ℚ) then a
        else
          let projected := |(d.1 : ℚ) * cs.1 + (d.2 : ℚ) * cs.2|
          let perpendicular := |(-(d.1 : ℚ)) * cs.2 + (d.2 : ℚ) * cs.1|
          let weight :=
            if perpendicular < 2 ∧ projected < (n.rfSize : ℚ) then
              E (-(perpendicular ^ 2) / 2)
            else 0
          (a.1 + em p.1 p.2 * weight, a.2 + 1))
    ((0 : ℚ), (0 : ℕ))

/-- `V1Neuron::compute_response`: activation is `max (sum / count) 0` when
`count > 0`, else `0`; Complex neurons then scale by `1.2` -/
def v1Response (E : ℚ → ℚ) (T : ℚ → ℚ × ℚ) (em : Grid ℚ) (w h : ℕ)
    (n : V1Neuron) : ℚ :=
  let acc := v1SampleSums E T em w h n
  let base := if 0 < acc.2 then max (acc.1 / (acc.2 : ℚ)) 0 else 0
  if n.neuronType = .complex then base * (12/10) else base

/-- `V1Column`: holds a Simple neuron with radius `rfSize` and a Complex
neuron with radius `rfSize + 2`, both at `(x, y)` with the same preferred
orientation (degrees) -/
structure V1Column where
  x : ℕ
  y : ℕ
  orientation : ℚ
  rfSize : ℕ
deriving DecidableEq, Repr

def V1Column.simpleNeuron (c : V1Column) : V1Neuron :=
  ⟨.simple, c.x, c.y, c.orientation, c.rfSize⟩

def V1Column.complexNeuron (c : V1Column) : V1Neuron :=
  ⟨.complex, c.x, c.y, c.orientation, c.rfSize + 2⟩

/-- `V1Column::max_activation`: `fold(0.0, f32::max)` over the two neurons'
activations -/
def columnMax (E : ℚ → ℚ) (T : ℚ → ℚ × ℚ) (em : Grid ℚ) (w h : ℕ)
    (c : V1Column) : ℚ :=
  max (max 0 (v1Response E T em w h c.simpleNeuron))
    (v1Response E T em w h c.complexNeuron)

/-- `V1Cortex::new`: columns on the lattice inset by `rf` from all edges,
one per orientation in the fixed creation order 0°, 45°, 90°, 135°.
`height - rf_size` and `width - rf_size` are `usize` subtractions that
panic on underflow (modelled by `none`); the inner one is only evaluated
when the row range is nonempty. -/
def v1New (w h spacing rf : ℕ) : Option (List V1Column) :=
  if h < rf then none
  else
    let ys := rangeStep rf (h - rf) spacing
    if ys ≠ [] ∧ w < rf then none
    else some (ys.flatMap fun y =>
      (rangeStep rf (w - rf) spacing).flatMap fun x =>
        [(0 : ℚ), 45, 90, 135].map fun o => ⟨x, y, o, rf⟩)

/-- Rust `Iterator::max_by` over `a :: l`: keeps the accumulator only when
it compares strictly greater, so the LAST maximal element wins -/
def maxByLast {α : Type} (f : α → ℚ) (a : α) (l : List α) : α :=
  l.foldl (fun acc c => if f c < f acc then acc else c) a

/-- `V1Cortex::orientation_map`: group the columns by position (a HashMap of
`Vec`s in push = creation order; distinct positions write distinct cells, so
the arbitrary HashMap iteration order is immaterial), pick the dominant
column with `max_by`, and record its orientation when its activation
exceeds `0.1` -/
def v1OrientationMap (E : ℚ → ℚ) (T : ℚ → ℚ × ℚ) (cols : List V1Column)
    (em : Grid ℚ) (w h : ℕ) : Grid (Option ℚ) :=
  fun x y =>
    match cols.filter (fun c => decide (c.x = x ∧ c.y = y)) with
    | [] => none
    | c :: rest =>
      let dom := maxByLast (columnMax E T em w h) c rest
      if (1/10 : ℚ) < columnMax E T em w h dom then some dom.orientation else none

/-! ## Claim C5 -/

/-- the literal reading of claim C5: identical sampling, but the weight
condition is `parallel ≤ radius` (non-strict) and the activation is written
`max (S / N) 0` -/
def claimC5Activation (E : ℚ → ℚ) (T : ℚ → ℚ × ℚ) (em : Grid ℚ) (w h : ℕ)
    (n : V1Neuron) : ℚ :=
  let cs := T n.orientation
  let rf : ℤ := n.rfSize
  let acc := (squareOffsets rf).foldl
    (fun (a : ℚ × ℕ) d =>
      match offsetPos n.x n.y w h d with
      | none => a
      | some p =>
        if ((n.rfSize : ℚ)) ^ 2 < ((d.1 * d.1 + d.2 * d.2 : ℤ) : ℚ) then a
        else
          let projected := |(d.1 : ℚ) * cs.1 + (d.2 : ℚ) * cs.2|
          let perpendicular := |(-(d.1 : ℚ)) * cs.2 + (d.2 : ℚ) * cs.1|
          let weight :=
            if perpendicular < 2 ∧ projected ≤ (n.rfSize : ℚ) then
              E (-(perpendicular ^ 2) / 2)
            else 0
          (a.1 + em p.1 p.2 * weight, a.2 + 1))
    ((0 : ℚ), (0 : ℕ))
  let base := max (acc.1 / (acc.2 : ℚ)) 0
  if n.neuronType = .complex then base * (12/10) else base

/-- claim C5 as stated, over every neuron, edge map and choice of the
transcendental parameters -/
def claimC5 : Prop :=
  ∀ (E : ℚ → ℚ) (T : ℚ → ℚ × ℚ) (em : Grid ℚ) (w h : ℕ) (n : V1Neuron),
    v1Response E T em w h n = claimC5Activation E T em w h n

/-- C5, as stated, is false: for a 0°-oriented Simple neuron of radius 1 at
(1,1) on a 3×3 map whose only edge sits at offset `(+1, 0)` — i.e.
`parallel = radius` exactly — the code's strict `parallel < radius` test
zeroes the weight (activation 0) while the claim's `parallel ≤ radius`
yields activation 1.  Here `E`/`T` are only evaluated at arguments where
the true `f32` values are exact: `exp 0 = 1`, `cos 0° = 1`, `sin 0° = 0`. -/
theorem c5_counterexample : ¬ claimC5 := by
  intro hcl
  have h := hcl (fun _ => 1) (fun _ => (1, 0))
    (fun a b => if a = 2 ∧ b = 1 then 5 else 0) 3 3 ⟨.simple, 1, 1, 0, 1⟩
  revert h
  with_unfolding_all decide

/-- the claim C5 formula with the strict `parallel < radius` of the source:
`max (S / N) 0` over the sampling sums, Complex scaled by 1.2 -/
def claimC5AmendedActivation (E : ℚ → ℚ) (T : ℚ → ℚ × ℚ) (em : Grid ℚ)
    (w h : ℕ) (n : V1Neuron) : ℚ :=
  let acc := v1SampleSums E T em w h n
  let base := max (acc.1 / (acc.2 : ℚ)) 0
  if n.neuronType = .complex then base * (12/10) else base

/-- C5, amended: activation = `max (S / N) 0` with the weight gate
`perp < 2 ∧ parallel < radius` (STRICT on the parallel extent), Complex
neurons scaled by 1.2 -/
theorem c5_amended (E : ℚ → ℚ) (T : ℚ → ℚ × ℚ) (em : Grid ℚ) (w h : ℕ)
    (n : V1Neuron) :
    v1Response E T em w h n = claimC5AmendedActivation E T em w h n := by
  unfold v1Response claimC5AmendedActivation
  rcases Nat.eq_zero_or_pos (v1SampleSums E T em w h n).2 with h0 | hpos
  · simp [h0]
  · simp [hpos]

/-! ## Claim C10 -/

lemma maxByLast_cons {α : Type} (f : α → ℚ) (a b : α) (l : List α) :
    maxByLast f a (b :: l) = maxByLast f (if f b < f a then a else b) l := rfl

lemma maxByLast_le {α : Type} (f : α → ℚ) :
    ∀ (l : List α) (a : α), ∀ b ∈ a :: l, f b ≤ f (maxByLast f a l) := by
  intro l
  induction l with
  | nil =>
    intro a b hb
    rcases List.mem_cons.mp hb with he | hn
    · exact le_of_eq (congrArg f he)
    · cases hn
  | cons c l ih =>
    intro a b hb
    rw [maxByLast_cons]
    have hstep : f a ≤ f (if f c < f a then a else c) ∧
        f c ≤ f (if f c < f a then a else c) := by
      by_cases hca : f c < f a
      · rw [if_pos hca]; exact ⟨le_refl _, le_of_lt hca⟩
      · rw [if_neg hca]; exact ⟨le_of_not_lt hca, le_refl _⟩
    have hhead := ih (if f c < f a then a else c) _ (List.mem_cons_self _ _)
    rcases List.mem_cons.mp hb with he | hn
    · exact le_trans (le_of_eq (congrArg f he)) (le_trans hstep.1 hhead)
    · rcases List.mem_cons.mp hn with he2 | hn2
      · exact le_trans (le_of_eq (congrArg f he2)) (le_trans hstep.2 hhead)
      · exact ih _ b (List.mem_cons_of_mem _ hn2)

lemma maxByLast_mem {α : Type} (f : α → ℚ) :
    ∀ (l : List α) (a : α), maxByLast f a l ∈ a :: l := by
  intro l
  induction l with
  | nil => intro a; exact List.mem_cons_self _ _
  | cons c l ih =>
    intro a
    rw [maxByLast_cons]
    have := ih (if f c < f a then a else c)
    rcases List.mem_cons.mp this with he | hn
    · rw [he]
      by_cases hca : f c < f a
      · rw [if_pos hca]; exact List.mem_cons_self _ _
      · rw [if_neg hca]
        exact List.mem_cons_of_mem _ (List.mem_cons_self _ _)
    · exact List.mem_cons_of_mem _ (List.mem_cons_of_mem _ hn)

/-- `max_by` returns the LAST maximal element: it is the last entry of the
sublist of elements attaining the maximum -/
lemma maxByLast_getLast {α : Type} (f : α → ℚ) :
    ∀ (l : List α) (a : α),
      ((a :: l).filter
        (fun c => decide (f (maxByLast f a l) ≤ f c))).getLast?
      = some (maxByLast f a l) := by
  intro l
  induction l with
  | nil =>
    intro a
    simp [maxByLast, List.filter]
  | cons c l ih =>
    intro a
    rw [maxByLast_cons]
    by_cases hca : f c < f a
    · rw [if_pos hca]
      have hle : f a ≤ f (maxByLast f a l) := maxByLast_le f l a a (List.mem_cons_self _ _)
      have hc : ¬ (f (maxByLast f a l) ≤ f c) := not_le.mpr (lt_of_lt_of_le hca hle)
      have : (a :: c :: l).filter (fun b => decide (f (maxByLast f a l) ≤ f b))
          = (a :: l).filter (fun b => decide (f (maxByLast f a l) ≤ f b)) := by
        by_cases hfa : f (maxByLast f a l) ≤ f a
        · rw [List.filter_cons_of_pos (by simpa using hfa),
            List.filter_cons_of_neg (by simpa using hc),
            List.filter_cons_of_pos (by simpa using hfa)]
        · rw [List.filter_cons_of_neg (by simpa using hfa),
            List.filter_cons_of_neg (by simpa using hc),
            List.filter_cons_of_neg (by simpa using hfa)]
      rw [this]
      exact ih a
    · rw [if_neg hca]
      have htail := ih c
      have hne : (c :: l).filter (fun b => decide (f (maxByLast f c l) ≤ f b)) ≠ [] := by
        intro hnil
        rw [hnil] at htail
        cases htail
      have : (a :: c :: l).filter (fun b => decide (f (maxByLast f c l) ≤ f b))
          = (List.filter (fun b => decide (f (maxByLast f c l) ≤ f b)) [a])
            ++ (c :: l).filter (fun b => decide (f (maxByLast f c l) ≤ f b)) := by
        rw [← List.filter_append]
        rfl
      rw [this, List.getLast?_append_of_ne_nil _ hne]
      exact htail

/-- the four orientation columns created at one lattice position, in the
fixed creation order 0°, 45°, 90°, 135° -/
def colsAt (x y rf : ℕ) : List V1Column :=
  [⟨x, y, 0, rf⟩, ⟨x, y, 45, rf⟩, ⟨x, y, 90, rf⟩, ⟨x, y, 135, rf⟩]

/-- the columns of `g` whose activation is maximal in `g` -/
def achievers (f : V1Column → ℚ) (g : List V1Column) : List V1Column :=
  g.filter (fun c => decide (∀ d ∈ g, f d ≤ f c))

lemma v1New_filter (w h s rf : ℕ) (cols : List V1Column)
    (hcols : v1New w h s rf = some cols) (x y : ℕ) :
    cols.filter (fun c => decide (c.x = x ∧ c.y = y))
      = if y ∈ rangeStep rf (h - rf) s ∧ x ∈ rangeStep rf (w - rf) s then
          colsAt x y rf
        else [] := by
  unfold v1New at hcols
  by_cases h1 : h < rf
  · rw [if_pos h1] at hcols; cases hcols
  rw [if_neg h1] at hcols
  by_cases h2 : rangeStep rf (h - rf) s ≠ [] ∧ w < rf
  · rw [if_pos h2] at hcols; cases hcols
  rw [if_neg h2] at hcols
  have hc := Option.some.inj hcols
  subst hc
  rw [List.filter_flatMap]
  have hquad : ∀ x' y' : ℕ,
      (([(0 : ℚ), 45, 90, 135].map fun o => (⟨x', y', o, rf⟩ : V1Column)).filter
        (fun c => decide (c.x = x ∧ c.y = y)))
      = if x' = x ∧ y' = y then colsAt x y rf else [] := by
    intro x' y'
    by_cases hxy : x' = x ∧ y' = y
    · obtain ⟨e1, e2⟩ := hxy
      subst e1; subst e2
      rw [if_pos ⟨rfl, rfl⟩]
      simp [List.filter, colsAt]
    · rw [if_neg hxy]
      have hno : ¬(x' = x ∧ y' = y) := hxy
      simp [List.filter, hno]
  have hbody : (fun y' => (((rangeStep rf (w - rf) s).flatMap fun x' =>
          ([(0 : ℚ), 45, 90, 135].map fun o => (⟨x', y', o, rf⟩ : V1Column))).filter
          (fun c => decide (c.x = x ∧ c.y = y))))
      = (fun y' => if y' = y then
          ((rangeStep rf (w - rf) s).flatMap fun x' =>
            if x' = x then colsAt x y rf else [])
          else []) := by
    funext y'
    rw [List.filter_flatMap]
    have : (fun x' => (([(0 : ℚ), 45, 90, 135].map
            fun o => (⟨x', y', o, rf⟩ : V1Column)).filter
            (fun c => decide (c.x = x ∧ c.y = y))))
        = (fun x' => if y' = y then (if x' = x then colsAt x y rf else []) else []) := by
      funext x'
      rw [hquad x' y']
      by_cases hy1 : y' = y
      · by_cases hx1 : x' = x
        · simp [hy1, hx1]
        · simp [hy1, hx1]
      · simp [hy1, and_comm]
    rw [this, flatMap_ite_const]
  rw [hbody,
    flatMap_ite_eq y _ (rangeStep rf (h - rf) s) (rangeStep_nodup rf (h - rf) s),
    flatMap_ite_eq x _ (rangeStep rf (w - rf) s) (rangeStep_nodup rf (w - rf) s)]
  by_cases hy1 : y ∈ rangeStep rf (h - rf) s
  · by_cases hx1 : x ∈ rangeStep rf (w - rf) s
    · simp [hy1, hx1]
    · simp [hy1, hx1]
  · simp [hy1]

/-- C10: at a lattice position of a constructed V1 cortex where two or more
of the four orientation columns (created in the fixed order 0°, 45°, 90°,
135°) share the maximal column activation exceeding 0.1, the orientation
map records the orientation of the LAST such column in that order. -/
theorem c10_tie_break (E : ℚ → ℚ) (T : ℚ → ℚ × ℚ) (w h s rf : ℕ)
    (cols : List V1Column) (hcols : v1New w h s rf = some cols)
    (em : Grid ℚ) (x y : ℕ)
    (hy : y ∈ rangeStep rf (h - rf) s) (hx : x ∈ rangeStep rf (w - rf) s)
    (clast : V1Column)
    (_htie : 2 ≤ (achievers (columnMax E T em w h) (colsAt x y rf)).length)
    (hlast : (achievers (columnMax E T em w h) (colsAt x y rf)).getLast? = some clast)
    (hthr : (1/10 : ℚ) < columnMax E T em w h clast) :
    v1OrientationMap E T cols em w h x y = some clast.orientation := by
  have hfil := v1New_filter w h s rf cols hcols x y
  rw [if_pos ⟨hy, hx⟩] at hfil
  show (match cols.filter (fun c => decide (c.x = x ∧ c.y = y)) with
    | [] => none
    | c :: rest =>
      let dom := maxByLast (columnMax E T em w h) c rest
      if (1/10 : ℚ) < columnMax E T em w h dom then some dom.orientation else none)
    = some clast.orientation
  rw [hfil]
  show (if (1/10 : ℚ) < columnMax E T em w h
        (maxByLast (columnMax E T em w h) (⟨x, y, 0, rf⟩ : V1Column)
          [⟨x, y, 45, rf⟩, ⟨x, y, 90, rf⟩, ⟨x, y, 135, rf⟩]) then
      some (maxByLast (columnMax E T em w h) (⟨x, y, 0, rf⟩ : V1Column)
          [⟨x, y, 45, rf⟩, ⟨x, y, 90, rf⟩, ⟨x, y, 135, rf⟩]).orientation
    else none)
    = some clast.orientation
  set f := columnMax E T em w h with hf
  set m := maxByLast f (⟨x, y, 0, rf⟩ : V1Column)
    [⟨x, y, 45, rf⟩, ⟨x, y, 90, rf⟩, ⟨x, y, 135, rf⟩] with hm
  have hach : achievers f (colsAt x y rf)
      = (colsAt x y rf).filter (fun c => decide (f m ≤ f c)) := by
    apply List.filter_congr
    intro b hb
    have h1 : (∀ d ∈ colsAt x y rf, f d ≤ f b) ↔ (f m ≤ f b) := by
      constructor
      · intro hall
        exact hall m (maxByLast_mem f _ _)
      · intro hmb d hd
        exact le_trans (maxByLast_le f _ _ d hd) hmb
    simp only [decide_eq_decide]
    exact h1
  have hgl2 : ((colsAt x y rf).filter (fun c => decide (f m ≤ f c))).getLast? = some m :=
    maxByLast_getLast f
      [(⟨x, y, 45, rf⟩ : V1Column), ⟨x, y, 90, rf⟩, ⟨x, y, 135, rf⟩] ⟨x, y, 0, rf⟩
  rw [hach] at hlast
  have hmc : m = clast := Option.some.inj (hgl2.symm.trans hlast)
  rw [hmc]
  exact if_pos hthr

/-- witness for C10: on a 3×3 edge map whose only edge sits exactly at the
single column position, all four columns tie (activation 6/5 > 0.1), and the
map records 135°, the last orientation in creation order -/
theorem c10_tie_break_witness :
    v1OrientationMap (fun _ => 1) (fun _ => (1, 0)) (colsAt 1 1 1)
      (fun a b => if a = 1 ∧ b = 1 then 6 else 0) 3 3 1 1 = some 135 :=
  c10_tie_break (fun _ => 1) (fun _ => (1, 0)) 3 3 8 1 (colsAt 1 1 1)
    (by with_unfolding_all decide)
    (fun a b => if a = 1 ∧ b = 1 then 6 else 0) 1 1
    (by with_unfolding_all decide) (by with_unfolding_all decide)
    ⟨1, 1, 135, 1⟩
    (by with_unfolding_all decide) (by with_unfolding_all decide)
    (by with_unfolding_all decide)

/-! ## V2 cortex (`src/v2_cortex.rs`): corner detectors -/

inductive CornerType
  | lJunction
  | tJunction
  | xJunction
  | yJunction
deriving DecidableEq, Repr

structure V2CornerDetector where
  x : ℕ
  y : ℕ
  cornerType : CornerType
  rfSize : ℕ
deriving DecidableEq, Repr

/-- `V2CornerDetector::detect_l_junction`: count near-horizontal
(`deg < 22.5 ∨ deg > 157.5`) and near-vertical (`67.5 ≤ deg ≤ 112.5`) cells
in the in-bounds `(2rf+1)²` neighborhood; both present ⇒
`min(h,v) × 2` capped at 100, else 0 -/
def detectLJunction (om : Grid (Option ℚ)) (w h x y rf : ℕ) : ℚ :=
  if w ≤ x ∨ h ≤ y then 0
  else
    let counts := (squareOffsets (rf : ℤ)).foldl
      (fun (a : ℕ × ℕ) d =>
        match offsetPos x y w h d with
        | none => a
        | some p =>
          match om p.1 p.2 with
          | none => a
          | some deg =>
            if deg < 45/2 ∨ (315/2 : ℚ) < deg then (a.1 + 1, a.2)
            else if 135/2 ≤ deg ∧ deg ≤ 225/2 then (a.1, a.2 + 1)
            else a)
      (0, 0)
    if 1 ≤ counts.1 ∧ 1 ≤ counts.2 then
      min (((min counts.1 counts.2 : ℕ) : ℚ) * 2) 100
    else 0

/-- `detect_x_junction`: near-45° (`22.5 ≤ deg ≤ 67.5`) and near-135°
(`112.5 ≤ deg ≤ 157.5`) counts, both ≥ 1 ⇒ `min × 2` capped at 100 -/
def detectXJunction (om : Grid (Option ℚ)) (w h x y rf : ℕ) : ℚ :=
  if w ≤ x ∨ h ≤ y then 0
  else
    let counts := (squareOffsets (rf : ℤ)).foldl
      (fun (a : ℕ × ℕ) d =>
        match offsetPos x y w h d with
        | none => a
        | some p =>
          match om p.1 p.2 with
          | none => a
          | some deg =>
            if 45/2 ≤ deg ∧ deg ≤ (135/2 : ℚ) then (a.1 + 1, a.2)
            else if 225/2 ≤ deg ∧ deg ≤ 315/2 then (a.1, a.2 + 1)
            else a)
      (0, 0)
    if 1 ≤ counts.1 ∧ 1 ≤ counts.2 then
      min (((min counts.1 counts.2 : ℕ) : ℚ) * 2) 100
    else 0

/-- `detect_t_junction`: the L-junction score at the same position × 0.8 -/
def detectTJunction (om : Grid (Option ℚ)) (w h x y rf : ℕ) : ℚ :=
  detectLJunction om w h x y rf * (8/10)

/-- `detect_y_junction`: the mean of the L and X scores × 0.7 -/
def detectYJunction (om : Grid (Option ℚ)) (w h x y rf : ℕ) : ℚ :=
  ((detectLJunction om w h x y rf + detectXJunction om w h x y rf) / 2) * (7/10)

/-- `V2CornerDetector::compute_response` (for a fresh detector; an empty map
leaves the initial activation 0, which the bound check reproduces) -/
def cornerResponse (om : Grid (Option ℚ)) (w h : ℕ) (d : V2CornerDetector) : ℚ :=
  match d.cornerType with
  | .lJunction => detectLJunction om w h d.x d.y d.rfSize
  | .tJunction => detectTJunction om w h d.x d.y d.rfSize
  | .xJunction => detectXJunction om w h d.x d.y d.rfSize
  | .yJunction => detectYJunction om w h d.x d.y d.rfSize

/-- `V2Cortex::new`: detectors on the `spacing`-spaced lattice with margin
`spacing`, four corner types per position in creation order L, T, X, Y,
receptive field 6.  The `height - spacing` / `width - spacing` `usize`
subtractions panic on underflow (`none`). -/
def v2New (w h spacing : ℕ) : Option (List V2CornerDetector) :=
  if h < spacing then none
  else
    let ys := rangeStep spacing (h - spacing) spacing
    if ys ≠ [] ∧ w < spacing then none
    else some (ys.flatMap fun y =>
      (rangeStep spacing (w - spacing) spacing).flatMap fun x =>
        [CornerType.lJunction, .tJunction, .xJunction, .yJunction].map
          fun t => ⟨x, y, t, 6⟩)

/-! ## V2 cortex: contour tracer -/

/-- `dilate_edge_map`: 3×3 max filter (the center pixel participates both as
the fold seed and as the `(0,0)` offset, as in the source) -/
def dilate (em : Grid ℚ) (w h : ℕ) : Grid ℚ :=
  fun x y =>
    (squareOffsets 1).foldl
      (fun mv d =>
        match offsetPos x y w h d with
        | none => mv
        | some p => max mv (em p.1 p.2))
      (em x y)

/-- the 8 neighbor offsets in source scan order (`dy` outer, `dx` inner,
skipping `(0,0)`) -/
def neighborOffsets : List (ℤ × ℤ) :=
  [(-1, -1), (0, -1), (1, -1), (-1, 0), (1, 0), (-1, 1), (0, 1), (1, 1)]

/-- one candidate of the neighbor-selection loop of `trace_contour`: an
in-bounds, unvisited neighbor with value `> 0.01` replaces the incumbent
only when strictly stronger -/
def bestStep (m : Grid ℚ) (w h : ℕ) (visited : Grid Bool) (cx cy : ℕ)
    (acc : Option (ℕ × ℕ) × ℚ) (d : ℤ × ℤ) : Option (ℕ × ℕ) × ℚ :=
  match offsetPos cx cy w h d with
  | none => acc
  | some p =>
    if ¬ visited p.1 p.2 ∧ (1/100 : ℚ) < m p.1 p.2 ∧ acc.2 < m p.1 p.2 then
      (some p, m p.1 p.2)
    else acc

/-- the neighbor-selection loop of `trace_contour`: among in-bounds,
unvisited neighbors with value `> 0.01`, pick the strictly strongest
(`best_strength` starts at 0; ties keep the earlier neighbor) -/
def bestNeighbor (m : Grid ℚ) (w h : ℕ) (visited : Grid Bool) (cx cy : ℕ) :
    Option (ℕ × ℕ) :=
  (neighborOffsets.foldl (bestStep m w h visited cx cy) (none, 0)).1

def mark (v : Grid Bool) (x y : ℕ) : Grid Bool :=
  fun a b => if a = x ∧ b = y then true else v a b

/-- the 200-iteration extension loop of `trace_contour`: step to the best
neighbor, mark it visited, append it; stop when no neighbor qualifies -/
def traceGo (m : Grid ℚ) (w h : ℕ) :
    ℕ → ℕ → ℕ → Grid Bool → (List (ℕ × ℕ) × Grid Bool)
  | 0, _, _, v => ([], v)
  | fuel + 1, cx, cy, v =>
    match bestNeighbor m w h v cx cy with
    | none => ([], v)
    | some p =>
      let r := traceGo m w h fuel p.1 p.2 (mark v p.1 p.2)
      (p :: r.1, r.2)

/-- `trace_contour`: start at `(sx, sy)` (marked visited), then extend for at
most 200 steps.  The source's final `is_empty` check is dead (the contour
always contains the start pixel), so the `Option` wrapper is omitted. -/
def traceContour (m : Grid ℚ) (w h : ℕ) (v : Grid Bool) (sx sy : ℕ) :
    List (ℕ × ℕ) × Grid Bool :=
  let r := traceGo m w h 200 sx sy (mark v sx sy)
  ((sx, sy) :: r.1, r.2)

/-- row-major pixel order (`y` outer, `x` inner) -/
def rowMajor (w h : ℕ) : List (ℕ × ℕ) :=
  (List.range h).flatMap fun y => (List.range w).map fun x => (x, y)

/-- one pixel of the row-major scan of `detect_contours`: start a trace at
an unvisited pixel with dilated value `> 0.5`, keep the path when its length
reaches `path_length` -/
def scanStep (pl : ℕ) (dm : Grid ℚ) (w h : ℕ)
    (acc : List (List (ℕ × ℕ)) × Grid Bool) (q : ℕ × ℕ) :
    List (List (ℕ × ℕ)) × Grid Bool :=
  if (1/2 : ℚ) < dm q.1 q.2 ∧ ¬ acc.2 q.1 q.2 then
    (if pl ≤ (traceContour dm w h acc.2 q.1 q.2).1.length then
        acc.1 ++ [(traceContour dm w h acc.2 q.1 q.2).1]
      else acc.1,
     (traceContour dm w h acc.2 q.1 q.2).2)
  else acc

/-- `V2ContourDetector::detect_contours`: empty-map guard, 3×3 dilation,
row-major scan starting a trace at unvisited pixels with dilated value
`> 0.5`; the greedy extension reads the DILATED map; keep paths of length
`≥ path_length` -/
def detectContours (pl : ℕ) (em : Grid ℚ) (w h : ℕ) : List (List (ℕ × ℕ)) :=
  if h = 0 then []
  else
    ((rowMajor w h).foldl (scanStep pl (dilate em w h) w h)
      ([], fun _ _ => false)).1

/-- `V2Response` -/
structure V2Response where
  cornerMap : Grid (Option CornerType)
  contours : List (List (ℕ × ℕ))
  cornerCount : ℕ
  contourCount : ℕ

/-- one write of the corner-map loop of `V2Cortex::process` -/
def cornerWrite (om : Grid (Option ℚ)) (w h : ℕ)
    (m : Grid (Option CornerType)) (d : V2CornerDetector) : Grid (Option CornerType) :=
  if 1 < cornerResponse om w h d then
    fun a b => if a = d.x ∧ b = d.y then some d.cornerType else m a b
  else m

/-- `V2Cortex::process`: compute every detector's response, trace contours,
then write each above-threshold (`> 1.0`) detector's type at its position in
iteration order (later writes overwrite earlier ones), and count the
above-threshold detector instances -/
def v2Process (dets : List V2CornerDetector) (pl : ℕ) (om : Grid (Option ℚ))
    (em : Grid ℚ) (w h : ℕ) : V2Response :=
  let contours := detectContours pl em w h
  { cornerMap := dets.foldl (cornerWrite om w h) (fun _ _ => none)
    contours := contours
    cornerCount := (dets.filter (fun d => decide (1 < cornerResponse om w h d))).length
    contourCount := contours.length }

/-! ## Claim C1 -/

/-- the literal reading of claim C1: identical scan and start rule
(dilated value `> 0.5`), but the greedy extension reads the RAW
(undilated) edge values -/
def claimC1Detect (pl : ℕ) (em : Grid ℚ) (w h : ℕ) : List (List (ℕ × ℕ)) :=
  if h = 0 then []
  else
    let dm := dilate em w h
    ((rowMajor w h).foldl
      (fun (acc : List (List (ℕ × ℕ)) × Grid Bool) q =>
        if (1/2 : ℚ) < dm q.1 q.2 ∧ ¬ acc.2 q.1 q.2 then
          let r := traceContour em w h acc.2 q.1 q.2
          (if pl ≤ r.1.length then acc.1 ++ [r.1] else acc.1, r.2)
        else acc)
      ([], fun _ _ => false)).1

/-- claim C1 as stated: the tracer behaves as the raw-value greedy walk -/
def claimC1 : Prop :=
  ∀ (pl : ℕ) (em : Grid ℚ) (w h : ℕ),
    detectContours pl em w h = claimC1Detect pl em w h

/-- C1, as stated, is false: on the 3×1 edge map `[0.6, 0, 0.6]` the code
(whose greedy extension reads the DILATED map, `trace_contour(&dilated_map,…)`)
bridges the gap and returns the single contour `[(0,0),(1,0),(2,0)]`,
while the raw-value walk of the claim stalls at every start and returns no
contour of length ≥ 3 -/
theorem c1_counterexample : ¬ claimC1 := by
  intro hcl
  have h := hcl 3 (fun a b => if b = 0 ∧ (a = 0 ∨ a = 2) then 3/5 else 0) 3 1
  revert h
  with_unfolding_all decide

/-- the claim C1 walk with the dilated map feeding the greedy extension, as
in the source -/
def claimC1AmendedDetect (pl : ℕ) (em : Grid ℚ) (w h : ℕ) : List (List (ℕ × ℕ)) :=
  if h = 0 then []
  else
    let dm := dilate em w h
    ((rowMajor w h).foldl
      (fun (acc : List (List (ℕ × ℕ)) × Grid Bool) q =>
        if (1/2 : ℚ) < dm q.1 q.2 ∧ ¬ acc.2 q.1 q.2 then
          let r := traceContour dm w h acc.2 q.1 q.2
          (if pl ≤ r.1.length then acc.1 ++ [r.1] else acc.1, r.2)
        else acc)
      ([], fun _ _ => false)).1

/-- C1, amended: the tracer starts at unvisited pixels with dilated value
`> 0.5` in row-major order and greedily extends through unvisited
8-neighbors by the DILATED (not raw) values above the `0.01` threshold,
first-encountered neighbor winning ties, for at most 200 steps -/
theorem c1_amended (pl : ℕ) (em : Grid ℚ) (w h : ℕ) :
    detectContours pl em w h = claimC1AmendedDetect pl em w h := rfl

/-! ## Claim C8 -/

lemma getLast?_cons_eq {α : Type} (a : α) :
    ∀ l : List α, (a :: l).getLast? = some ((l.getLast?).getD a) := by
  intro l
  induction l generalizing a with
  | nil => rfl
  | cons b l ih =>
    rw [List.getLast?_cons_cons, ih b]
    rfl

/-- the type of the last qualifying detector, or a default cell value -/
def lastType (o : Option V2CornerDetector) (dflt : Option CornerType) : Option CornerType :=
  match o with
  | some d => some d.cornerType
  | none => dflt

lemma foldl_cornerWrite_value (om : Grid (Option ℚ)) (w h x y : ℕ) :
    ∀ (dets : List V2CornerDetector) (m : Grid (Option CornerType)),
      (dets.foldl (cornerWrite om w h) m) x y
        = lastType ((dets.filter (fun d =>
            decide (d.x = x ∧ d.y = y ∧ 1 < cornerResponse om w h d))).getLast?) (m x y) := by
  intro dets
  induction dets with
  | nil => intro m; rfl
  | cons d ds ih =>
    intro m
    rw [List.foldl_cons, ih]
    by_cases hq : d.x = x ∧ d.y = y ∧ 1 < cornerResponse om w h d
    · obtain ⟨h1, h2, h3⟩ := hq
      rw [List.filter_cons_of_pos (by simp only [decide_eq_true_eq]; exact ⟨h1, h2, h3⟩)]
      have hw : cornerWrite om w h m d x y = some d.cornerType := by
        subst h1; subst h2
        simp [cornerWrite, h3]
      rw [hw, getLast?_cons_eq]
      rcases hgl : (ds.filter (fun e =>
          decide (e.x = x ∧ e.y = y ∧ 1 < cornerResponse om w h e))).getLast? with _ | e
      · rw [hgl]
        rfl
      · rw [hgl]
        rfl
    · rw [List.filter_cons_of_neg (by simpa using hq)]
      have hw : cornerWrite om w h m d x y = m x y := by
        unfold cornerWrite
        by_cases ha : 1 < cornerResponse om w h d
        · rw [if_pos ha]
          have : ¬(x = d.x ∧ y = d.y) := by
            intro ⟨e1, e2⟩
            exact hq ⟨e1.symm, e2.symm, ha⟩
          exact if_neg this
        · exact congrFun (congrFun (if_neg ha) x) y
      rw [hw]

/-- number of populated cells of an optional grid -/
def populatedCount {α : Type} (g : Grid (Option α)) (w h : ℕ) : ℕ :=
  ((rowMajor w h).filter (fun q => (g q.1 q.2).isSome)).length

/-- C8: a detector writes its type at its position exactly when its
activation exceeds 1.0, the LAST above-threshold detector in iteration
order winning the cell; `corner_count` counts every above-threshold
instance, which can strictly exceed the number of populated cells -/
theorem c8_corner_map (dets : List V2CornerDetector) (pl : ℕ)
    (om : Grid (Option ℚ)) (em : Grid ℚ) (w h : ℕ) :
    (∀ x y, (v2Process dets pl om em w h).cornerMap x y
      = ((dets.filter (fun d =>
          decide (d.x = x ∧ d.y = y ∧ 1 < cornerResponse om w h d))).getLast?).map
          V2CornerDetector.cornerType) ∧
    ((v2Process dets pl om em w h).cornerCount
      = (dets.filter (fun d => decide (1 < cornerResponse om w h d))).length) ∧
    (∃ (w' h' s : ℕ) (dets' : List V2CornerDetector) (om' : Grid (Option ℚ)),
      v2New w' h' s = some dets' ∧
      populatedCount ((v2Process dets' 3 om' (fun _ _ => 0) w' h').cornerMap) w' h'
        < (v2Process dets' 3 om' (fun _ _ => 0) w' h').cornerCount) := by
  refine ⟨?_, rfl, ?_⟩
  · intro x y
    show (dets.foldl (cornerWrite om w h) (fun _ _ => none)) x y = _
    rw [foldl_cornerWrite_value om w h x y dets (fun _ _ => none)]
    rcases hgl : (dets.filter (fun d =>
        decide (d.x = x ∧ d.y = y ∧ 1 < cornerResponse om w h d))).getLast? with _ | e
    · rw [hgl]
      rfl
    · rw [hgl]
      rfl
  · refine ⟨9, 9, 4,
      [⟨4, 4, .lJunction, 6⟩, ⟨4, 4, .tJunction, 6⟩,
       ⟨4, 4, .xJunction, 6⟩, ⟨4, 4, .yJunction, 6⟩],
      (fun a b => if a = 3 ∧ b = 4 then some 0
        else if a = 5 ∧ b = 4 then some 90 else none),
      by with_unfolding_all decide, by with_unfolding_all decide⟩

/-! ## Claim C6 -/

/-- C6: at every position and for every orientation map, the T score is
0.8 × the L score and the Y score is 0.7 × the mean of the L and X scores -/
theorem c6_derived_scores (om : Grid (Option ℚ)) (w h x y rf : ℕ) :
    detectTJunction om w h x y rf = (8/10) * detectLJunction om w h x y rf ∧
    detectYJunction om w h x y rf
      = (7/10) * ((detectLJunction om w h x y rf + detectXJunction om w h x y rf) / 2) := by
  constructor
  · unfold detectTJunction
    ring
  · unfold detectYJunction
    ring

/-! ## Claim C9 -/

lemma mark_self (v : Grid Bool) (x y : ℕ) : mark v x y x y = true := by
  simp [mark]

lemma mark_mono (v : Grid Bool) (x y a b : ℕ) (hv : v a b = true) :
    mark v x y a b = true := by
  unfold mark
  by_cases hc : a = x ∧ b = y
  · rw [if_pos hc]
  · rw [if_neg hc]
    exact hv

lemma mark_eq_false (v : Grid Bool) (x y a b : ℕ)
    (hm : mark v x y a b = false) : v a b = false ∧ ¬(a = x ∧ b = y) := by
  unfold mark at hm
  by_cases hc : a = x ∧ b = y
  · rw [if_pos hc] at hm
    cases hm
  · rw [if_neg hc] at hm
    exact ⟨hm, hc⟩

lemma mark_true_cases (v : Grid Bool) (x y a b : ℕ)
    (hm : mark v x y a b = true) : (a = x ∧ b = y) ∨ v a b = true := by
  unfold mark at hm
  by_cases hc : a = x ∧ b = y
  · exact Or.inl hc
  · rw [if_neg hc] at hm
    exact Or.inr hm

lemma bestStep_unvisited (m : Grid ℚ) (w h : ℕ) (v : Grid Bool) (cx cy : ℕ)
    (acc : Option (ℕ × ℕ) × ℚ) (d : ℤ × ℤ)
    (hacc : ∀ q, acc.1 = some q → v q.1 q.2 = false) :
    ∀ q, (bestStep m w h v cx cy acc d).1 = some q → v q.1 q.2 = false := by
  intro q hq
  unfold bestStep at hq
  split at hq
  · exact hacc q hq
  · split at hq
    · rename_i hcond
      cases hq
      simpa using hcond.1
    · exact hacc q hq

/-- the best neighbor is unvisited -/
lemma bestNeighbor_unvisited (m : Grid ℚ) (w h : ℕ) (v : Grid Bool)
    (cx cy : ℕ) (p : ℕ × ℕ) (hbn : bestNeighbor m w h v cx cy = some p) :
    v p.1 p.2 = false := by
  unfold bestNeighbor at hbn
  have hgen : ∀ (l : List (ℤ × ℤ)) (acc : Option (ℕ × ℕ) × ℚ),
      (∀ q, acc.1 = some q → v q.1 q.2 = false) →
      ∀ q, (l.foldl (bestStep m w h v cx cy) acc).1 = some q → v q.1 q.2 = false := by
    intro l
    induction l with
    | nil => exact fun acc hacc => hacc
    | cons d l ih =>
      intro acc hacc q hq
      rw [List.foldl_cons] at hq
      exact ih _ (bestStep_unvisited m w h v cx cy acc d hacc) q hq
  exact hgen neighborOffsets (none, 0) (fun q hq => by cases hq) p hbn

lemma traceGo_succ (m : Grid ℚ) (w h fuel cx cy : ℕ) (v : Grid Bool) :
    traceGo m w h (fuel + 1) cx cy v
      = match bestNeighbor m w h v cx cy with
        | none => ([], v)
        | some p =>
          let r := traceGo m w h fuel p.1 p.2 (mark v p.1 p.2)
          (p :: r.1, r.2) := rfl

lemma traceGo_length (m : Grid ℚ) (w h : ℕ) :
    ∀ (fuel cx cy : ℕ) (v : Grid Bool),
      (traceGo m w h fuel cx cy v).1.length ≤ fuel := by
  intro fuel
  induction fuel with
  | zero => intro cx cy v; exact Nat.le_refl 0
  | succ f ih =>
    intro cx cy v
    rw [traceGo_succ]
    cases hbn : bestNeighbor m w h v cx cy with
    | none => exact Nat.zero_le _
    | some p =>
      show ((p :: (traceGo m w h f p.1 p.2 (mark v p.1 p.2)).1).length ≤ f + 1)
      rw [List.length_cons]
      exact Nat.succ_le_succ (ih p.1 p.2 (mark v p.1 p.2))

lemma traceGo_mono (m : Grid ℚ) (w h : ℕ) :
    ∀ (fuel cx cy : ℕ) (v : Grid Bool) (a b : ℕ),
      v a b = true → (traceGo m w h fuel cx cy v).2 a b = true := by
  intro fuel
  induction fuel with
  | zero => intro cx cy v a b hv; exact hv
  | succ f ih =>
    intro cx cy v a b hv
    rw [traceGo_succ]
    cases hbn : bestNeighbor m w h v cx cy with
    | none => exact hv
    | some p =>
      exact ih p.1 p.2 (mark v p.1 p.2) a b (mark_mono v p.1 p.2 a b hv)

lemma traceGo_out_subset (m : Grid ℚ) (w h : ℕ) :
    ∀ (fuel cx cy : ℕ) (v : Grid Bool) (a b : ℕ),
      (traceGo m w h fuel cx cy v).2 a b = true →
      v a b = true ∨ (a, b) ∈ (traceGo m w h fuel cx cy v).1 := by
  intro fuel
  induction fuel with
  | zero => intro cx cy v a b hv; exact Or.inl hv
  | succ f ih =>
    intro cx cy v a b hv
    rw [traceGo_succ] at hv ⊢
    cases hbn : bestNeighbor m w h v cx cy with
    | none =>
      rw [hbn] at hv
      exact Or.inl hv
    | some p =>
      rw [hbn] at hv
      rcases ih p.1 p.2 (mark v p.1 p.2) a b hv with hm | hmem
      · rcases mark_true_cases v p.1 p.2 a b hm with ⟨e1, e2⟩ | hv2
        · subst e1; subst e2
          exact Or.inr (List.mem_cons_self _ _)
        · exact Or.inl hv2
      · exact Or.inr (List.mem_cons_of_mem _ hmem)

/-- every traced pixel is marked in the output visited set and was unvisited
on entry -/
lemma traceGo_elems (m : Grid ℚ) (w h : ℕ) :
    ∀ (fuel cx cy : ℕ) (v : Grid Bool) (p : ℕ × ℕ),
      p ∈ (traceGo m w h fuel cx cy v).1 →
      (traceGo m w h fuel cx cy v).2 p.1 p.2 = true ∧ v p.1 p.2 = false := by
  intro fuel
  induction fuel with
  | zero => intro cx cy v p hp; cases hp
  | succ f ih =>
    intro cx cy v p hp
    rw [traceGo_succ] at hp ⊢
    cases hbn : bestNeighbor m w h v cx cy with
    | none =>
      rw [hbn] at hp
      cases hp
    | some q =>
      rw [hbn] at hp
      rcases List.mem_cons.mp hp with he | hmem
      · rw [he]
        constructor
        · exact traceGo_mono m w h f q.1 q.2 (mark v q.1 q.2) q.1 q.2
            (mark_self v q.1 q.2)
        · exact bestNeighbor_unvisited m w h v cx cy q hbn
      · rcases ih q.1 q.2 (mark v q.1 q.2) p hmem with ⟨hout, hfresh⟩
        exact ⟨hout, (mark_eq_false v q.1 q.2 p.1 p.2 hfresh).1⟩

/-- `trace_contour` wrapper facts: length bound, every contour pixel is
visited afterwards and (except the start) fresh, the visited set only
grows, and only contour pixels are newly visited -/
lemma traceContour_spec (m : Grid ℚ) (w h : ℕ) (v : Grid Bool) (sx sy : ℕ) :
    (traceContour m w h v sx sy).1.length ≤ 201 ∧
    (∀ p ∈ (traceContour m w h v sx sy).1,
      (traceContour m w h v sx sy).2 p.1 p.2 = true ∧
      (p = (sx, sy) ∨ v p.1 p.2 = false)) ∧
    (∀ a b, v a b = true → (traceContour m w h v sx sy).2 a b = true) ∧
    (∀ a b, (traceContour m w h v sx sy).2 a b = true →
      v a b = true ∨ (a, b) ∈ (traceContour m w h v sx sy).1) := by
  unfold traceContour
  refine ⟨?_, ?_, ?_, ?_⟩
  · rw [List.length_cons]
    exact Nat.succ_le_succ (traceGo_length m w h 200 sx sy (mark v sx sy))
  · intro p hp
    rcases List.mem_cons.mp hp with he | hmem
    · subst he
      refine ⟨?_, Or.inl rfl⟩
      exact traceGo_mono m w h 200 sx sy (mark v sx sy) sx sy (mark_self v sx sy)
    · rcases traceGo_elems m w h 200 sx sy (mark v sx sy) p hmem with ⟨hout, hfresh⟩
      exact ⟨hout, Or.inr (mark_eq_false v sx sy p.1 p.2 hfresh).1⟩
  · intro a b hv
    exact traceGo_mono m w h 200 sx sy (mark v sx sy) a b (mark_mono v sx sy a b hv)
  · intro a b hout
    rcases traceGo_out_subset m w h 200 sx sy (mark v sx sy) a b hout with hm | hmem
    · rcases mark_true_cases v sx sy a b hm with ⟨e1, e2⟩ | hv2
      · subst e1; subst e2
        exact Or.inr (List.mem_cons_self _ _)
      · exact Or.inl hv2
    · exact Or.inr (List.mem_cons_of_mem _ hmem)

/-- invariant of the row-major scan: kept contours lie inside the visited
set, have the required lengths, and are pairwise pixel-disjoint -/
lemma scan_spec (pl : ℕ) (dm : Grid ℚ) (w h : ℕ) :
    ∀ (qs : List (ℕ × ℕ)) (acc : List (List (ℕ × ℕ)) × Grid Bool),
      (∀ c ∈ acc.1, (∀ p ∈ c, acc.2 p.1 p.2 = true) ∧ pl ≤ c.length ∧ c.length ≤ 201) →
      acc.1.Pairwise (fun c1 c2 => ∀ p ∈ c1, p ∉ c2) →
      (∀ c ∈ (qs.foldl (scanStep pl dm w h) acc).1,
        (∀ p ∈ c, (qs.foldl (scanStep pl dm w h) acc).2 p.1 p.2 = true) ∧
        pl ≤ c.length ∧ c.length ≤ 201) ∧
      (qs.foldl (scanStep pl dm w h) acc).1.Pairwise
        (fun c1 c2 => ∀ p ∈ c1, p ∉ c2) := by
  intro qs
  induction qs with
  | nil => intro acc h1 h2; exact ⟨h1, h2⟩
  | cons q qs ih =>
    intro acc h1 h2
    rw [List.foldl_cons]
    refine ih (scanStep pl dm w h acc q) ?_ ?_
    · unfold scanStep
      by_cases hc : (1/2 : ℚ) < dm q.1 q.2 ∧ ¬ acc.2 q.1 q.2
      · rw [if_pos hc]
        rcases traceContour_spec dm w h acc.2 q.1 q.2 with ⟨hlen, helem, hmono, _hsub⟩
        by_cases hkeep : pl ≤ (traceContour dm w h acc.2 q.1 q.2).1.length
        · rw [if_pos hkeep]
          intro c hcm
          rcases List.mem_append.mp hcm with hold | hnew
          · exact ⟨fun p hp => hmono p.1 p.2 ((h1 c hold).1 p hp),
              (h1 c hold).2.1, (h1 c hold).2.2⟩
          · have he := List.mem_singleton.mp hnew
            subst he
            exact ⟨fun p hp => (helem p hp).1, hkeep, hlen⟩
        · rw [if_neg hkeep]
          intro c hcm
          exact ⟨fun p hp => hmono p.1 p.2 ((h1 c hcm).1 p hp),
            (h1 c hcm).2.1, (h1 c hcm).2.2⟩
      · rw [if_neg hc]
        exact h1
    · unfold scanStep
      by_cases hc : (1/2 : ℚ) < dm q.1 q.2 ∧ ¬ acc.2 q.1 q.2
      · rw [if_pos hc]
        rcases traceContour_spec dm w h acc.2 q.1 q.2 with ⟨_hlen, helem, _hmono, _hsub⟩
        by_cases hkeep : pl ≤ (traceContour dm w h acc.2 q.1 q.2).1.length
        · rw [if_pos hkeep]
          show (acc.1 ++ [(traceContour dm w h acc.2 q.1 q.2).1]).Pairwise _
          rw [List.pairwise_append]
          refine ⟨h2, List.pairwise_singleton _ _, ?_⟩
          intro c1 hc1 c2 hc2 p hp1 hp2
          have he := List.mem_singleton.mp hc2
          subst he
          have hvis : acc.2 p.1 p.2 = true := (h1 c1 hc1).1 p hp1
          rcases (helem p hp2).2 with he2 | hfresh
          · rw [he2] at hvis
            exact hc.2 hvis
          · rw [hvis] at hfresh
            cases hfresh
        · rw [if_neg hkeep]
          exact h2
      · rw [if_neg hc]
        exact h2

/-- C9: every contour returned by `detect_contours` terminates within 200
extension steps (so at most 201 pixels), has at least `path_length` pixels,
and no pixel is claimed by two returned contours -/
theorem c9_contour_invariants (pl : ℕ) (em : Grid ℚ) (w h : ℕ) :
    (∀ c ∈ detectContours pl em w h, pl ≤ c.length ∧ c.length ≤ 201) ∧
    (detectContours pl em w h).Pairwise (fun c1 c2 => ∀ p ∈ c1, p ∉ c2) := by
  unfold detectContours
  by_cases h0 : h = 0
  · rw [if_pos h0]
    exact ⟨fun c hc => absurd hc (List.not_mem_nil c), List.Pairwise.nil⟩
  · rw [if_neg h0]
    rcases scan_spec pl (dilate em w h) w h (rowMajor w h) ([], fun _ _ => false)
      (fun c hc => absurd hc (List.not_mem_nil c)) List.Pairwise.nil with ⟨hlen, hpw⟩
    exact ⟨fun c hc => (hlen c hc).2, hpw⟩

/-- witness for C9 at a concrete input: the 3×1 all-0.7 map yields the single
contour `[(0,0),(1,0),(2,0)]`, whose length is within the required bounds -/
theorem c9_contour_invariants_witness :
    3 ≤ ([((0 : ℕ), (0 : ℕ)), (1, 0), (2, 0)] : List (ℕ × ℕ)).length ∧
    ([((0 : ℕ), (0 : ℕ)), (1, 0), (2, 0)] : List (ℕ × ℕ)).length ≤ 201 :=
  (c9_contour_invariants 3 (fun _ b => if b = 0 then 7/10 else 0) 3 1).1
    [(0, 0), (1, 0), (2, 0)] (by with_unfolding_all decide)

/-! ## V4 cortex (`src/v4_cortex.rs`) -/

inductive ShapeType
  | circle
  | rectangle
  | triangle
  | line
  | cross
  | complex
deriving DecidableEq, Repr

structure V4ShapeDetector where
  x : ℕ
  y : ℕ
  shapeType : ShapeType
  rfSize : ℕ
deriving DecidableEq, Repr

/-- the inclusive range `a..=b` over naturals, in increasing order -/
def natRangeIncl (a b : ℕ) : List ℕ := (List.range (b + 1 - a)).map (a + ·)

/-- `in_receptive_field`: the square window
`[x₀ ∸ rf, x₀ + rf] × [y₀ ∸ rf, y₀ + rf]` (saturating subtraction) -/
def inRF (x0 y0 rf x y : ℕ) : Bool :=
  decide (x0 - rf ≤ x ∧ x ≤ x0 + rf ∧ y0 - rf ≤ y ∧ y ≤ y0 + rf)

/-- the corner-map window scans of the shape detectors:
`y₀∸rf ..= min (y₀+rf) (h-1)` × `x₀∸rf ..= min (x₀+rf) (w-1)`
(the source's `len() - 1` panics for an empty map; claims only exercise
nonempty maps) -/
def windowCells (x0 y0 rf w h : ℕ) : List (ℕ × ℕ) :=
  (natRangeIncl (y0 - rf) (min (y0 + rf) (h - 1))).flatMap fun y =>
    (natRangeIncl (x0 - rf) (min (x0 + rf) (w - 1))).map fun x => (x, y)

/-- count window cells whose corner entry satisfies `pred` -/
def countCorners (cm : Grid (Option CornerType)) (w h x0 y0 rf : ℕ)
    (pred : CornerType → Bool) : ℕ :=
  ((windowCells x0 y0 rf w h).filter (fun q =>
    match cm q.1 q.2 with
    | some t => pred t
    | none => false)).length

/-- number of pixels of one contour inside the receptive field -/
def localPixels (x0 y0 rf : ℕ) (c : List (ℕ × ℕ)) : ℕ :=
  (c.filter (fun p => inRF x0 y0 rf p.1 p.2)).length

/-- total contour pixels inside the window -/
def contourPixels (x0 y0 rf : ℕ) (cs : List (List (ℕ × ℕ))) : ℕ :=
  (cs.map (localPixels x0 y0 rf)).sum

/-- the longest single contour fragment inside the window (source keeps the
running strict maximum, starting at 0) -/
def longestLocal (x0 y0 rf : ℕ) (cs : List (List (ℕ × ℕ))) : ℕ :=
  cs.foldl (fun m c => max m (localPixels x0 y0 rf c)) 0

/-- number of contours touching the window -/
def contourSegments (x0 y0 rf : ℕ) (cs : List (List (ℕ × ℕ))) : ℕ :=
  (cs.filter (fun c => c.any (fun p => inRF x0 y0 rf p.1 p.2))).length

/-- `detect_circle` -/
def detectCircle (r : V2Response) (w h x0 y0 rf : ℕ) : ℚ :=
  let pixels := contourPixels x0 y0 rf r.contours
  let longest := longestLocal x0 y0 rf r.contours
  let corners := countCorners r.cornerMap w h x0 y0 rf (fun _ => true)
  let density : ℚ := (pixels : ℚ) / ((rf * rf : ℕ) : ℚ)
  let ratio : ℚ := if 0 < pixels then (corners : ℚ) / (pixels : ℚ) else 1
  if 20 ≤ pixels ∧ ratio < 8/100 ∧ 8/100 < density then
    let smoothness := (1 - ratio * 10) * 25
    let bonus : ℚ := if 15/100 < density then 5 else 0
    min (max (smoothness + bonus) 10) 25
  else if 6 ≤ longest ∧ corners ≤ 3 ∧ pixels < 35 then
    let continuity : ℚ := (longest : ℚ) / ((max pixels 1 : ℕ) : ℚ)
    if 3/10 < continuity then min ((longest : ℚ) * (3/2)) 18 else 0
  else 0

/-- `detect_rectangle` -/
def detectRectangle (r : V2Response) (w h x0 y0 rf : ℕ) : ℚ :=
  let lCount := countCorners r.cornerMap w h x0 y0 rf (fun t => t = .lJunction)
  let xCount := countCorners r.cornerMap w h x0 y0 rf (fun t => t = .xJunction)
  let segs := contourSegments x0 y0 rf r.contours
  if 3 ≤ lCount ∧ 3 ≤ segs then min (((lCount + segs : ℕ) : ℚ) * (3/2)) 25
  else if 2 ≤ xCount ∧ 2 ≤ segs then min (((xCount + segs : ℕ) : ℚ)) 20
  else 0

/-- `detect_triangle` -/
def detectTriangle (r : V2Response) (w h x0 y0 rf : ℕ) : ℚ :=
  let lCount := countCorners r.cornerMap w h x0 y0 rf (fun t => t = .lJunction)
  let yCount := countCorners r.cornerMap w h x0 y0 rf (fun t => t = .yJunction)
  let segs := contourSegments x0 y0 rf r.contours
  let total := lCount + yCount
  if total = 3 ∧ 3 ≤ segs then min (((total + segs : ℕ) : ℚ) * 2) 20
  else if 2 ≤ total ∧ total ≤ 4 ∧ 2 ≤ segs then min (((total + segs : ℕ) : ℚ)) 15
  else 0

/-- `detect_line` -/
def detectLine (r : V2Response) (w h x0 y0 rf : ℕ) : ℚ :=
  let longest := longestLocal x0 y0 rf r.contours
  let corners := countCorners r.cornerMap w h x0 y0 rf (fun _ => true)
  if 8 < longest ∧ corners ≤ 4 then
    min (max ((longest : ℚ) * (9/10) - (corners : ℚ) * (5/10)) 5) 20
  else if 5 < longest ∧ corners ≤ 2 then min ((longest : ℚ) * (7/10)) 15
  else 0

/-- `detect_cross` -/
def detectCross (r : V2Response) (w h x0 y0 rf : ℕ) : ℚ :=
  let xCount := countCorners r.cornerMap w h x0 y0 rf (fun t => t = .xJunction)
  let tCount := countCorners r.cornerMap w h x0 y0 rf (fun t => t = .tJunction)
  let segs := contourSegments x0 y0 rf r.contours
  if 1 ≤ xCount ∧ 3 ≤ segs then min (((xCount * 5 + segs : ℕ) : ℚ)) 25
  else if 2 ≤ tCount ∧ 3 ≤ segs then min (((tCount * 3 + segs : ℕ) : ℚ)) 20
  else 0

/-- `detect_complex` -/
def detectComplexShape (r : V2Response) (w h x0 y0 rf : ℕ) : ℚ :=
  let corners := countCorners r.cornerMap w h x0 y0 rf (fun _ => true)
  let segs := contourSegments x0 y0 rf r.contours
  if 6 < corners ∧ 5 < segs then min (((corners + segs : ℕ) : ℚ) * (5/10)) 20
  else 0

/-- `V4ShapeDetector::compute_response` -/
def shapeResponse (r : V2Response) (w h : ℕ) (d : V4ShapeDetector) : ℚ :=
  match d.shapeType with
  | .circle => detectCircle r w h d.x d.y d.rfSize
  | .rectangle => detectRectangle r w h d.x d.y d.rfSize
  | .triangle => detectTriangle r w h d.x d.y d.rfSize
  | .line => detectLine r w h d.x d.y d.rfSize
  | .cross => detectCross r w h d.x d.y d.rfSize
  | .complex => detectComplexShape r w h d.x d.y d.rfSize

/-- `V4Cortex::new`: detectors on the lattice with margin `spacing`, six
shape types per position in creation order, receptive field 10; `usize`
subtraction underflow modelled by `none` -/
def v4New (w h spacing : ℕ) : Option (List V4ShapeDetector) :=
  if h < spacing then none
  else
    let ys := rangeStep spacing (h - spacing) spacing
    if ys ≠ [] ∧ w < spacing then none
    else some (ys.flatMap fun y =>
      (rangeStep spacing (w - spacing) spacing).flatMap fun x =>
        [ShapeType.circle, .rectangle, .triangle, .line, .cross, .complex].map
          fun t => ⟨x, y, t, 10⟩)

/-- `V4Response` (the per-type `HashMap` tally is not needed by any claim
and is omitted) -/
structure V4Response where
  shapeMap : Grid (Option ShapeType)
  shapeCount : ℕ

/-- one detector of the aggregation loop of `V4Cortex::process`: an
above-threshold (`> 5.0`), in-bounds detector always increments the count,
and overwrites the cell only when STRICTLY stronger than the incumbent
activation (ties keep the earlier detector) -/
def v4Step (r : V2Response) (w h : ℕ)
    (st : Grid (Option ShapeType) × Grid ℚ × ℕ) (d : V4ShapeDetector) :
    Grid (Option ShapeType) × Grid ℚ × ℕ :=
  if 5 < shapeResponse r w h d then
    if d.x < w ∧ d.y < h then
      (if st.2.1 d.x d.y < shapeResponse r w h d then
        (fun a b => if a = d.x ∧ b = d.y then some d.shapeType else st.1 a b,
         fun a b => if a = d.x ∧ b = d.y then shapeResponse r w h d else st.2.1 a b,
         st.2.2 + 1)
      else (st.1, st.2.1, st.2.2 + 1))
    else st
  else st

/-- `V4Cortex::process` -/
def v4Process (dets : List V4ShapeDetector) (r : V2Response) (w h : ℕ) :
    V4Response :=
  let res := dets.foldl (v4Step r w h) (fun _ _ => none, fun _ _ => 0, 0)
  { shapeMap := res.1, shapeCount := res.2.2 }

/-! ## Claim C7 -/

/-- the per-cell competition: each qualifying detector replaces the
incumbent `(type?, activation)` only when strictly stronger -/
def bestDetFold (r : V2Response) (w h : ℕ) (l : List V4ShapeDetector)
    (cur : Option ShapeType × ℚ) : Option ShapeType × ℚ :=
  l.foldl
    (fun c d =>
      if c.2 < shapeResponse r w h d then (some d.shapeType, shapeResponse r w h d)
      else c)
    cur

lemma bestDetFold_const (r : V2Response) (w h : ℕ) :
    ∀ (l : List V4ShapeDetector) (cur : Option ShapeType × ℚ),
      (∀ e ∈ l, shapeResponse r w h e ≤ cur.2) → bestDetFold r w h l cur = cur := by
  intro l
  induction l with
  | nil => intro cur _; rfl
  | cons e l ih =>
    intro cur hle
    unfold bestDetFold
    rw [List.foldl_cons,
      if_neg (not_lt.mpr (hle e (List.mem_cons_self _ _)))]
    exact ih cur (fun e2 he2 => hle e2 (List.mem_cons_of_mem _ he2))

/-- when one detector is strictly stronger than every other and than the
incumbent, the competition ends with exactly that detector -/
lemma bestDetFold_strictmax (r : V2Response) (w h : ℕ) :
    ∀ (l : List V4ShapeDetector) (cur : Option ShapeType × ℚ) (d : V4ShapeDetector),
      d ∈ l →
      (∀ e ∈ l, e ≠ d → shapeResponse r w h e < shapeResponse r w h d) →
      cur.2 < shapeResponse r w h d →
      bestDetFold r w h l cur = (some d.shapeType, shapeResponse r w h d) := by
  intro l
  induction l with
  | nil => intro cur d hd; cases hd
  | cons e l ih =>
    intro cur d hd hmax hcur
    unfold bestDetFold
    rw [List.foldl_cons]
    by_cases hed : e = d
    · subst hed
      rw [if_pos hcur]
      exact bestDetFold_const r w h l (some e.shapeType, shapeResponse r w h e)
        (fun e2 he2 => by
          by_cases he2d : e2 = e
          · rw [he2d]
          · exact le_of_lt (hmax e2 (List.mem_cons_of_mem _ he2) he2d))
    · have hdl : d ∈ l := by
        rcases List.mem_cons.mp hd with he | hl
        · exact absurd he.symm hed
        · exact hl
      have hel : shapeResponse r w h e < shapeResponse r w h d :=
        hmax e (List.mem_cons_self _ _) hed
      by_cases hrep : cur.2 < shapeResponse r w h e
      · rw [if_pos hrep]
        exact ih _ d hdl (fun e2 he2 he2d => hmax e2 (List.mem_cons_of_mem _ he2) he2d) hel
      · rw [if_neg hrep]
        exact ih _ d hdl (fun e2 he2 he2d => hmax e2 (List.mem_cons_of_mem _ he2) he2d) hcur

/-- the detectors that compete for the cell `(x, y)` -/
def v4QualAt (r : V2Response) (w h x y : ℕ) (d : V4ShapeDetector) : Bool :=
  decide (d.x = x ∧ d.y = y ∧ x < w ∧ y < h ∧ 5 < shapeResponse r w h d)

lemma foldl_v4_cell (r : V2Response) (w h x y : ℕ) :
    ∀ (dets : List V4ShapeDetector) (st : Grid (Option ShapeType) × Grid ℚ × ℕ),
      ((dets.foldl (v4Step r w h) st).1 x y, (dets.foldl (v4Step r w h) st).2.1 x y)
        = bestDetFold r w h (dets.filter (v4QualAt r w h x y)) (st.1 x y, st.2.1 x y) := by
  intro dets
  induction dets with
  | nil => intro st; rfl
  | cons d ds ih =>
    intro st
    rw [List.foldl_cons, ih]
    by_cases hq : d.x = x ∧ d.y = y ∧ x < w ∧ y < h ∧ 5 < shapeResponse r w h d
    · obtain ⟨h1, h2, h3, h4, h5⟩ := hq
      rw [List.filter_cons_of_pos (by
        simp only [v4QualAt, decide_eq_true_eq]
        exact ⟨h1, h2, h3, h4, h5⟩)]
      unfold bestDetFold
      rw [List.foldl_cons]
      show _ = List.foldl _
        (if (st.1 x y, st.2.1 x y).2 < shapeResponse r w h d then
          (some d.shapeType, shapeResponse r w h d)
        else (st.1 x y, st.2.1 x y)) _
      have hst : ((v4Step r w h st d).1 x y, (v4Step r w h st d).2.1 x y)
          = (if (st.1 x y, st.2.1 x y).2 < shapeResponse r w h d then
              (some d.shapeType, shapeResponse r w h d)
            else (st.1 x y, st.2.1 x y)) := by
        unfold v4Step
        subst h1; subst h2
        rw [if_pos h5, if_pos ⟨h3, h4⟩]
        by_cases hrep : st.2.1 d.x d.y < shapeResponse r w h d
        · rw [if_pos hrep, if_pos hrep]
          simp
        · rw [if_neg hrep, if_neg hrep]
      rw [hst]
    · rw [List.filter_cons_of_neg (by simpa [v4QualAt] using hq)]
      have hst : ((v4Step r w h st d).1 x y, (v4Step r w h st d).2.1 x y)
          = (st.1 x y, st.2.1 x y) := by
        unfold v4Step
        by_cases ha : 5 < shapeResponse r w h d
        · rw [if_pos ha]
          by_cases hb : d.x < w ∧ d.y < h
          · rw [if_pos hb]
            have hpos : ¬(x = d.x ∧ y = d.y) := by
              intro ⟨e1, e2⟩
              exact hq ⟨e1.symm, e2.symm, e1 ▸ hb.1, e2 ▸ hb.2, ha⟩
            by_cases hrep : st.2.1 d.x d.y < shapeResponse r w h d
            · rw [if_pos hrep]
              show (if x = d.x ∧ y = d.y then _ else st.1 x y,
                if x = d.x ∧ y = d.y then _ else st.2.1 x y) = _
              rw [if_neg hpos, if_neg hpos]
            · rw [if_neg hrep]
          · rw [if_neg hb]
        · rw [if_neg ha]
      rw [hst]

lemma foldl_v4_count (r : V2Response) (w h : ℕ) :
    ∀ (dets : List V4ShapeDetector) (st : Grid (Option ShapeType) × Grid ℚ × ℕ),
      (dets.foldl (v4Step r w h) st).2.2
        = st.2.2 + (dets.filter (fun d =>
            decide (5 < shapeResponse r w h d ∧ d.x < w ∧ d.y < h))).length := by
  intro dets
  induction dets with
  | nil => intro st; simp
  | cons d ds ih =>
    intro st
    rw [List.foldl_cons, ih]
    by_cases hq : 5 < shapeResponse r w h d ∧ d.x < w ∧ d.y < h
    · obtain ⟨h1, h2⟩ := hq
      rw [List.filter_cons_of_pos (by simp only [decide_eq_true_eq]; exact ⟨h1, h2⟩)]
      have hst : (v4Step r w h st d).2.2 = st.2.2 + 1 := by
        unfold v4Step
        rw [if_pos h1, if_pos h2]
        by_cases hrep : st.2.1 d.x d.y < shapeResponse r w h d
        · rw [if_pos hrep]
        · rw [if_neg hrep]
      rw [hst, List.length_cons]
      omega
    · rw [List.filter_cons_of_neg (by simpa using hq)]
      have hst : (v4Step r w h st d).2.2 = st.2.2 := by
        unfold v4Step
        by_cases ha : 5 < shapeResponse r w h d
        · rw [if_pos ha]
          by_cases hb : d.x < w ∧ d.y < h
          · exact absurd ⟨ha, hb.1, hb.2⟩ hq
          · rw [if_neg hb]
        · rw [if_neg ha]
      rw [hst]

/-- C7: the shape-map cell holds the type of the strictly strongest
above-threshold (`> 5.0`) detector at that position (empty when no detector
there exceeds 5.0); `shape_count` tallies every above-threshold in-bounds
detector instance, which can strictly exceed the number of populated
cells -/
theorem c7_shape_map (dets : List V4ShapeDetector) (r : V2Response) (w h : ℕ) :
    (∀ x y (d : V4ShapeDetector), d ∈ dets → d.x = x → d.y = y →
      x < w → y < h → 5 < shapeResponse r w h d →
      (∀ e ∈ dets, e.x = x → e.y = y → e ≠ d →
        shapeResponse r w h e < shapeResponse r w h d) →
      (v4Process dets r w h).shapeMap x y = some d.shapeType) ∧
    (∀ x y, (∀ e ∈ dets, e.x = x → e.y = y → shapeResponse r w h e ≤ 5) →
      (v4Process dets r w h).shapeMap x y = none) ∧
    ((v4Process dets r w h).shapeCount
      = (dets.filter (fun d =>
          decide (5 < shapeResponse r w h d ∧ d.x < w ∧ d.y < h))).length) ∧
    (∃ (w' h' s : ℕ) (dets' : List V4ShapeDetector) (r' : V2Response),
      v4New w' h' s = some dets' ∧
      populatedCount ((v4Process dets' r' w' h').shapeMap) w' h'
        < (v4Process dets' r' w' h').shapeCount) := by
  refine ⟨?_, ?_, ?_, ?_⟩
  · intro x y d hd hdx hdy hxw hyh hact hmax
    have hcell := foldl_v4_cell r w h x y dets (fun _ _ => none, fun _ _ => 0, 0)
    have hdq : d ∈ dets.filter (v4QualAt r w h x y) :=
      List.mem_filter.mpr ⟨hd, by
        simp only [v4QualAt, decide_eq_true_eq]
        exact ⟨hdx, hdy, hxw, hyh, hact⟩⟩
    have hbest := bestDetFold_strictmax r w h (dets.filter (v4QualAt r w h x y))
      (((fun _ _ => none : Grid (Option ShapeType)) x y,
        ((fun _ _ => 0 : Grid ℚ)) x y)) d hdq
      (fun e he hed => by
        have hm := List.mem_filter.mp he
        have hq := of_decide_eq_true hm.2
        exact hmax e hm.1 hq.1 hq.2.1 hed)
      (by
        show (0 : ℚ) < shapeResponse r w h d
        have : (0 : ℚ) < 5 := by norm_num
        exact lt_trans this hact)
    show (dets.foldl (v4Step r w h) (fun _ _ => none, fun _ _ => 0, 0)).1 x y = _
    have := congrArg Prod.fst (hcell.trans hbest)
    exact this
  · intro x y hle
    have hcell := foldl_v4_cell r w h x y dets (fun _ _ => none, fun _ _ => 0, 0)
    have hnil : dets.filter (v4QualAt r w h x y) = [] := by
      rw [List.filter_eq_nil_iff]
      intro e he hq
      have hq2 := of_decide_eq_true hq
      exact absurd (hle e he hq2.1 hq2.2.1) (not_le.mpr hq2.2.2.2.2)
    rw [hnil] at hcell
    show (dets.foldl (v4Step r w h) (fun _ _ => none, fun _ _ => 0, 0)).1 x y = _
    exact congrArg Prod.fst hcell
  · have hc := foldl_v4_count r w h dets (fun _ _ => none, fun _ _ => 0, 0)
    show (dets.foldl (v4Step r w h) (fun _ _ => none, fun _ _ => 0, 0)).2.2 = _
    simpa using hc
  · refine ⟨7, 7, 3,
      [⟨3, 3, .circle, 10⟩, ⟨3, 3, .rectangle, 10⟩, ⟨3, 3, .triangle, 10⟩,
       ⟨3, 3, .line, 10⟩, ⟨3, 3, .cross, 10⟩, ⟨3, 3, .complex, 10⟩],
      { cornerMap := fun a b =>
          if (a = 3 ∧ b = 2) ∨ (a = 2 ∧ b = 3) ∨ (a = 4 ∧ b = 4) then
            some .lJunction
          else none
        contours := [[(3, 3)], [(3, 4)], [(4, 3)]]
        cornerCount := 3
        contourCount := 3 },
      by with_unfolding_all decide, by with_unfolding_all decide⟩

/-- witness for C7: in the concrete 7×7 scenario the triangle detector
(activation 12) strictly dominates the rectangle detector (9) and the four
silent detectors, so the cell holds `Triangle` -/
theorem c7_shape_map_witness :
    (v4Process
      [⟨3, 3, .circle, 10⟩, ⟨3, 3, .rectangle, 10⟩, ⟨3, 3, .triangle, 10⟩,
       ⟨3, 3, .line, 10⟩, ⟨3, 3, .cross, 10⟩, ⟨3, 3, .complex, 10⟩]
      { cornerMap := fun a b =>
          if (a = 3 ∧ b = 2) ∨ (a = 2 ∧ b = 3) ∨ (a = 4 ∧ b = 4) then
            some .lJunction
          else none
        contours := [[(3, 3)], [(3, 4)], [(4, 3)]]
        cornerCount := 3
        contourCount := 3 } 7 7).shapeMap 3 3 = some .triangle :=
  (c7_shape_map _ _ 7 7).1 3 3 ⟨3, 3, .triangle, 10⟩
    (by with_unfolding_all decide) rfl rfl
    (by decide) (by decide) (by with_unfolding_all decide)
    (by with_unfolding_all decide)

/-! ## Cone phototransduction and the pathway orchestrator
(`src/cone.rs`, `src/photopigment.rs`, `src/visual_pathway.rs`) -/

structure LightStimulus where
  wavelength : ℚ
  intensity : ℚ
deriving DecidableEq, Repr

inductive ConeType
  | S
  | M
  | L
deriving DecidableEq, Repr

def peakWavelength : ConeType → ℚ
  | .S => 420
  | .M => 530
  | .L => 560

def sensitivityWidth : ConeType → ℚ
  | .S => 30
  | .M => 40
  | .L => 40

/-- `ConeType::spectral_sensitivity`: the Gaussian passed through the
abstract `exp` parameter, clamped to `[0, 1]` -/
def spectralSensitivity (E : ℚ → ℚ) (t : ConeType) (lam : ℚ) : ℚ :=
  qclamp (E (-((lam - peakWavelength t) ^ 2) / (2 * (sensitivityWidth t) ^ 2))) 0 1

structure Cone where
  ctype : ConeType
  cgmp : ℚ
  membrane : ℚ
  glut : ℚ
  adaptation : ℚ
  atp : ℚ
deriving DecidableEq, Repr

/-- `Cone::new`: dark-adapted initial state -/
def coneNew (t : ConeType) : Cone := ⟨t, 100, -40, 100, 0, 100⟩

/-- `Cone::phototransduction`: the stateful low-pass cascade (cGMP moves 30%
toward its target each call, clamped to `[10, 100]`; adaptation moves 1%
toward its target; membrane and glutamate are recomputed from cGMP) -/
def phototransduction (E : ℚ → ℚ) (c : Cone) (s : LightStimulus) : Cone :=
  let sens := spectralSensitivity E c.ctype s.wavelength
  let eff := s.intensity * sens
  let adapted := eff * (1 - c.adaptation * (7/10))
  let targetCgmp := 100 - qclamp (adapted / 10) 0 90
  let cgmp2 := qclamp (c.cgmp + (targetCgmp - c.cgmp) * (3/10)) 10 100
  let channel := cgmp2 / 100
  let membrane := -70 + ((-40) - (-70)) * channel
  let depol := (membrane - (-70)) / ((-40) - (-70))
  let glut := 10 + (100 - 10) * depol
  let adaptation2 := c.adaptation + (qclamp (eff / 100) 0 1 - c.adaptation) * (1/100)
  let atp2 := max (c.atp - 1/10) 20
  ⟨c.ctype, cgmp2, membrane, glut, adaptation2, atp2⟩

/-- `Cone::response_level`: `min (base × 50) 1` -/
def responseLevel (c : Cone) : ℚ :=
  min ((((-40) - c.membrane) / ((-40) - (-70))) * 50) 1

/-- the cone type laid out at pixel `(x, y)` by `VisualPathway::new` -/
def coneTypeAt (x y : ℕ) : ConeType :=
  if (x + y) % 10 = 0 then .S
  else if (x + y) % 10 ≤ 4 then .M
  else .L

structure Pathway where
  cones : List Cone
  ganglion : List GanglionCell
  v1 : List V1Column
  v2 : List V2CornerDetector
  width : ℕ
  height : ℕ
deriving DecidableEq

/-- `VisualPathway::new`: one cone per pixel (row-major), the ganglion layer
(spacing 4, radii 1.5/4.0), V1 (spacing 8, rf 5) and V2 (spacing 4); the V1
and V2 constructors can panic on `usize` underflow (`none`) -/
def pathwayNew (w h : ℕ) : Option Pathway :=
  let cones := (List.range h).flatMap fun y =>
    (List.range w).map fun x => coneNew (coneTypeAt x y)
  match v1New w h 8 5, v2New w h 4 with
  | some v1, some v2 => some ⟨cones, ganglionNew w h 4 (3/2) 4, v1, v2, w, h⟩
  | _, _ => none

/-- `VisualPathway::process_phototransduction`: walk the cones in index
order (`y = idx / w`, `x = idx % w`); a cone whose pixel lies inside the
light pattern is driven one step and its response level written into the
zero-initialised activation grid; others keep their state and a 0 entry -/
def photoStage (E : ℚ → ℚ) (cones : List Cone) (w : ℕ)
    (light : List (List LightStimulus)) : List Cone × Grid ℚ :=
  let res := cones.foldl
    (fun (st : List Cone × Grid ℚ × ℕ) cone =>
      let y := st.2.2 / w
      let x := st.2.2 % w
      if y < light.length ∧ x < (light.headD []).length then
        let c2 := phototransduction E cone ((light.getD y []).getD x ⟨0, 0⟩)
        (st.1 ++ [c2],
         (fun a b => if a = x ∧ b = y then responseLevel c2 else st.2.1 a b,
          st.2.2 + 1))
      else (st.1 ++ [cone], st.2.1, st.2.2 + 1))
    ([], fun _ _ => 0, 0)
  (res.1, res.2.1)

structure VisualFeatures where
  horizontal : ℚ
  vertical : ℚ
  diagonal : ℚ
  total : ℚ
deriving DecidableEq, Repr

/-- `VisualPathway::extract_features`: per column, its max activation goes
to the vertical bucket (`deg < 22.5 ∨ deg > 157.5`), horizontal bucket
(`67.5 ≤ deg ≤ 112.5`) or diagonal bucket, and into the total; the diagonal
accumulator is divided by 2.25 -/
def extractFeatures (E : ℚ → ℚ) (T : ℚ → ℚ × ℚ) (cols : List V1Column)
    (em : Grid ℚ) (w h : ℕ) : VisualFeatures :=
  let acc := cols.foldl
    (fun (a : ℚ × ℚ × ℚ × ℚ) c =>
      let act := columnMax E T em w h c
      let deg := c.orientation
      if deg < 45/2 ∨ (315/2 : ℚ) < deg then (a.1, a.2.1 + act, a.2.2.1, a.2.2.2 + act)
      else if 135/2 ≤ deg ∧ deg ≤ 225/2 then (a.1 + act, a.2.1, a.2.2.1, a.2.2.2 + act)
      else (a.1, a.2.1, a.2.2.1 + act, a.2.2.2 + act))
    (0, 0, 0, 0)
  ⟨acc.1, acc.2.1, acc.2.2.1 / (9/4), acc.2.2.2⟩

structure VisualResponse where
  coneActivations : Grid ℚ
  edgeMap : Grid ℚ
  orientationMap : Grid (Option ℚ)
  v2 : V2Response
  features : VisualFeatures

/-- `VisualPathway::process_scene`: phototransduction, ganglion edge map,
V1 orientation map, V2 corners/contours, derived features; the updated
pathway (new cone states) is returned alongside the response -/
def processScene (E : ℚ → ℚ) (T : ℚ → ℚ × ℚ) (p : Pathway)
    (light : List (List LightStimulus)) : Pathway × VisualResponse :=
  let ph := photoStage E p.cones p.width light
  let em := createEdgeMap p.ganglion p.width p.height ph.2
  let om := v1OrientationMap E T p.v1 em p.width p.height
  let v2r := v2Process p.v2 3 om em p.width p.height
  ({ p with cones := ph.1 },
   { coneActivations := ph.2
     edgeMap := em
     orientationMap := om
     v2 := v2r
     features := extractFeatures E T p.v1 em p.width p.height })

/-! ## Claim C2 -/

/-- the literal reading of claim C2: any zero-sized pathway constructs
successfully, and processing yields zero corner/contour/shape counts -/
def claimC2 : Prop :=
  ∀ w h : ℕ, w = 0 ∨ h = 0 →
    ∃ p : Pathway, pathwayNew w h = some p ∧
      ∃ v4d : List V4ShapeDetector, v4New w h 8 = some v4d ∧
        ∀ (E : ℚ → ℚ) (T : ℚ → ℚ × ℚ) (light : List (List LightStimulus)),
          (processScene E T p light).2.v2.cornerCount = 0 ∧
          (processScene E T p light).2.v2.contourCount = 0 ∧
          (v4Process v4d (processScene E T p light).2.v2 w h).shapeCount = 0

/-- C2, as stated, is false: for the 0×0 grid, `V1Cortex::new` evaluates
`height - rf_size = 0 - 5`, a `usize` underflow that panics — construction
fails rather than degrading gracefully -/
theorem c2_counterexample : ¬ claimC2 := by
  intro hcl
  obtain ⟨p, hp, _⟩ := hcl 0 0 (Or.inl rfl)
  rw [show pathwayNew 0 0 = none by with_unfolding_all decide] at hp
  cases hp

/-- C2, amended: any pathway with height 0 fails to construct (the V1
constructor's `height - rf_size` underflows and panics); in the zero-width
case 0×8, where every lattice happens to be empty, construction succeeds
and processing any input does return an all-zero edge map, an empty
orientation map, and zero corner, contour and shape counts -/
theorem c2_amended :
    (∀ w : ℕ, pathwayNew w 0 = none) ∧
    (pathwayNew 0 8 = some ⟨[], [], [], [], 0, 8⟩ ∧
      v4New 0 8 8 = some [] ∧
      ∀ (E : ℚ → ℚ) (T : ℚ → ℚ × ℚ) (light : List (List LightStimulus)),
        (∀ x y, (processScene E T ⟨[], [], [], [], 0, 8⟩ light).2.edgeMap x y = 0) ∧
        (∀ x y,
          (processScene E T ⟨[], [], [], [], 0, 8⟩ light).2.orientationMap x y = none) ∧
        (processScene E T ⟨[], [], [], [], 0, 8⟩ light).2.v2.cornerCount = 0 ∧
        (processScene E T ⟨[], [], [], [], 0, 8⟩ light).2.v2.contourCount = 0 ∧
        (v4Process [] (processScene E T ⟨[], [], [], [], 0, 8⟩ light).2.v2 0 8).shapeCount
          = 0) := by
  refine ⟨fun w => rfl, by with_unfolding_all decide, by with_unfolding_all decide,
    fun E T light => ⟨fun x y => rfl, fun x y => rfl, rfl, rfl, rfl⟩⟩

/-! ## Claim C4 -/

/-- claim C4 as stated: on a freshly constructed pathway, two successive
`process` calls with the same input produce identical responses -/
def claimC4 : Prop :=
  ∀ (E : ℚ → ℚ) (T : ℚ → ℚ × ℚ) (w h : ℕ)
    (light : List (List LightStimulus)) (hs : (pathwayNew w h).isSome),
    (processScene E T ((processScene E T ((pathwayNew w h).get hs) light).1) light).2
      = (processScene E T ((pathwayNew w h).get hs) light).2

set_option maxRecDepth 4000 in
/-- C4, as stated, is false: cone phototransduction is a stateful low-pass
filter, so state DOES carry over.  On a fresh 5×5 pathway lit by a single
intensity-10 stimulus at the L-cone pixel (4,4) (wavelength 560 = the
L-cone peak, so only `exp 0 = 1` is exercised), the first call leaves
cGMP at 99.7 and the second call continues the decay, changing the cone
response from 0.15 to 0.254895 and the edge-map value at (4,4) from
3/40 to 50979/400000. -/
theorem c4_counterexample : ¬ claimC4 := by
  intro hcl
  have h := hcl (fun _ => 1) (fun _ => (1, 0)) 5 5
    ((List.range 5).map fun y => (List.range 5).map fun x =>
      ⟨560, if x = 4 ∧ y = 4 then 10 else 0⟩)
    (by with_unfolding_all decide)
  have h2 := congrArg (fun r => r.edgeMap 4 4) h
  revert h2
  with_unfolding_all decide

/-- the stage pipeline applied to a fixed activation grid: everything after
phototransduction is a pure function of the pathway geometry and the
activation grid -/
def pipelineResponse (E : ℚ → ℚ) (T : ℚ → ℚ × ℚ) (p : Pathway)
    (acts : Grid ℚ) : VisualResponse :=
  let em := createEdgeMap p.ganglion p.width p.height acts
  { coneActivations := acts
    edgeMap := em
    orientationMap := v1OrientationMap E T p.v1 em p.width p.height
    v2 := v2Process p.v2 3 (v1OrientationMap E T p.v1 em p.width p.height) em
      p.width p.height
    features := extractFeatures E T p.v1 em p.width p.height }

/-- C4, amended: only the cone (phototransduction) state carries across
calls — `process` leaves the ganglion, V1 and V2 layers and the dimensions
untouched, and every post-retinal output is the pure function
`pipelineResponse` of the activation grid the cones produced, so two calls
differ exactly when their activation grids do -/
theorem c4_amended (E : ℚ → ℚ) (T : ℚ → ℚ × ℚ) (p : Pathway)
    (light : List (List LightStimulus)) :
    processScene E T p light
      = (⟨(photoStage E p.cones p.width light).1, p.ganglion, p.v1, p.v2,
          p.width, p.height⟩,
         pipelineResponse E T p (photoStage E p.cones p.width light).2) := rfl

end NNN
